import Mathlib

/-!
Verification development for the Second Brain capture / classification /
correction pipeline (scripts/process_inbox.py, scripts/imessage_capture.py,
scripts/send_feedback.py).

Modelling conventions:
* Python strings are Lean `String`s; character-level algorithms are carried
  out on `List Char` so that every definition is executable and reducible.
* Python floats are modelled as rationals (`ℚ`); the confidence threshold
  0.6 is `mkRat 6 10`.
* Front-matter dictionaries are association lists `List (String × Value)`
  with Python truthiness made explicit.
* The YAML loader, the external classifier (Claude) and the message
  transport (iMessage / AppleScript) are modelled as oracle parameters,
  matching the spec's view of them as external collaborators.
* The file-based item store is a record of three zones (inbox holding area,
  Inbox/Processed archive, category destination folders) plus the activity
  log, mirroring the directories the scripts touch.
-/

namespace SB

/-- A YAML scalar / value as stored in an item's front matter. -/
inductive Value where
  | str (s : String)
  | bool (b : Bool)
  | rat (q : ℚ)
  | vlist (l : List String)
  | null
deriving DecidableEq

/-- A parsed front-matter block: an insertion-ordered dictionary. -/
abbrev Frontmatter := List (String × Value)

/-- Python truthiness of a YAML value (`if v:`). -/
def Value.truthy : Value → Bool
  | .str s => s != ""
  | .bool b => b
  | .rat q => q != 0
  | .vlist l => !l.isEmpty
  | .null => false

/-- Python truthiness of `dict.get(k)` (missing key → `None` → falsy). -/
def otruthy : Option Value → Bool
  | none => false
  | some v => v.truthy

/-- Association-list lookup (`dict.get` / `dict[k]`). -/
def alGet {α : Type} : List (String × α) → String → Option α
  | [], _ => none
  | (k, v) :: rest, key => if k = key then some v else alGet rest key

/-- Association-list update of one key (`dict[k] = v`), keeping position. -/
def alSet {α : Type} : List (String × α) → String → α → List (String × α)
  | [], key, v => [(key, v)]
  | (k, w) :: rest, key, v =>
    if k = key then (k, v) :: rest else (k, w) :: alSet rest key v

/-- Association-list removal of one key (`del dict[k]` / file deletion). -/
def alRemove {α : Type} : List (String × α) → String → List (String × α)
  | [], _ => []
  | (k, v) :: rest, key =>
    if k = key then alRemove rest key else (k, v) :: alRemove rest key

/-- `frontmatter.get(key)`. -/
def fmGet (fm : Frontmatter) (k : String) : Option Value := alGet fm k

/-- `frontmatter.get(key)` when a string is expected. -/
def fmGetStr (fm : Frontmatter) (k : String) : Option String :=
  match fmGet fm k with
  | some (.str s) => some s
  | _ => none

/-- `frontmatter.update({...})`: apply the updates left to right. -/
def fmUpdate (fm : Frontmatter) (kvs : List (String × Value)) : Frontmatter :=
  kvs.foldl (fun acc kv => alSet acc kv.1 kv.2) fm

/-- The characters Python's `str.strip()` and `\s` treat as whitespace (ASCII). -/
def isPySpace (c : Char) : Bool :=
  c = ' ' || c = '\t' || c = '\n' || c = '\r' || c = '\x0b' || c = '\x0c'

/-- Strip whitespace from both ends of a character list (`str.strip()`). -/
def chStrip (l : List Char) : List Char :=
  ((l.dropWhile isPySpace).reverse.dropWhile isPySpace).reverse

/-- Python `s.strip()`. -/
def pyStrip (s : String) : String := .mk (chStrip s.toList)

/-- Python `s.strip(x)` for a single character `x`. -/
def chStripChar (x : Char) (l : List Char) : List Char :=
  ((l.dropWhile (· = x)).reverse.dropWhile (· = x)).reverse

/-- Python `s.startswith(pat)`. -/
def pyStartsWith (s pat : String) : Bool := pat.toList.isPrefixOf s.toList

/-- Substring containment on character lists (Python `pat in s`). -/
def chContains : List Char → List Char → Bool
  | [], pat => pat.isEmpty
  | c :: rest, pat => pat.isPrefixOf (c :: rest) || chContains rest pat

/-- Python `pat in s`. -/
def pyContains (s pat : String) : Bool := chContains s.toList pat.toList

/-- Fuel-driven split on a (nonempty) separator; one unit of fuel is spent
per character consumed, so `length + 1` fuel always suffices. -/
def chSplitOnFuel (sep : List Char) : ℕ → List Char → List Char → List (List Char)
  | 0, s, acc => [acc.reverse ++ s]
  | fuel + 1, s, acc =>
    match s with
    | [] => [acc.reverse]
    | c :: rest =>
      if sep.isPrefixOf (c :: rest) then
        acc.reverse :: chSplitOnFuel sep fuel ((c :: rest).drop sep.length) []
      else
        chSplitOnFuel sep fuel rest (c :: acc)

/-- Python `s.split(sep)` for a nonempty separator. -/
def pySplit (s sep : String) : List String :=
  (chSplitOnFuel sep.toList (s.toList.length + 1) s.toList []).map String.mk

/-- Python `s.split(sep, 2)`: at most two splits, remainder rejoined. -/
def pySplit2 (s sep : String) : List String :=
  match pySplit s sep with
  | p0 :: p1 :: p2 :: rest =>
    if rest.isEmpty then [p0, p1, p2]
    else [p0, p1, .mk (List.intercalate sep.toList ((p2 :: rest).map String.toList))]
  | parts => parts

/-- Outcome of `yaml.safe_load` on a front-matter block: a YAML error, or a
parsed document (`none` models YAML `null`, as for an empty block). -/
inductive YamlResult where
  | err
  | ok (fm : Option Frontmatter)

/-- `parse_frontmatter` from scripts/process_inbox.py (an identical copy
lives in scripts/send_feedback.py): split off a leading `---`-delimited
YAML block; on any failure return empty metadata and the content unchanged.
`y` is the `yaml.safe_load` oracle. -/
def parse_frontmatter (y : String → YamlResult) (content : String) :
    Frontmatter × String :=
  if pyStartsWith content "---" then
    match pySplit2 content "---" with
    | [_, p1, p2] =>
      match y p1 with
      | .err => ([], content)
      | .ok fm => (fm.getD [], pyStrip p2)
    | _ => ([], content)
  else ([], content)

/-- C10: front-matter parsing is total — for every yaml oracle and input it
returns a (metadata, body) pair; and whenever the content does not start
with `---`, or splitting on `---` yields fewer than three parts (fewer than
two further delimiters), or the delimited block is not valid YAML, it
returns the empty metadata dict together with the original content
unchanged. -/
theorem C10_parse_frontmatter_total (y : String → YamlResult) (content : String) :
    (∃ fm body, parse_frontmatter y content = (fm, body)) ∧
    (¬ pyStartsWith content "---" → parse_frontmatter y content = ([], content)) ∧
    ((pySplit2 content "---").length < 3 → parse_frontmatter y content = ([], content)) ∧
    (∀ p0 p1 p2, pySplit2 content "---" = [p0, p1, p2] → y p1 = .err →
      parse_frontmatter y content = ([], content)) := by
  refine ⟨⟨_, _, rfl⟩, ?_, ?_, ?_⟩
  · intro h
    simp only [parse_frontmatter, if_neg h]
  · intro h
    unfold parse_frontmatter
    split
    · split
      · rename_i heq
        rw [heq] at h
        simp at h
      · rfl
    · rfl
  · intro p0 p1 p2 hsplit herr
    unfold parse_frontmatter
    split
    · split
      · rename_i heq
        rw [hsplit] at heq
        cases heq
        rw [herr]
      · rename_i hne
        rfl
    · rfl

/-- Witness for C10 at a concrete input: content without a leading
delimiter is returned unchanged with empty metadata. -/
theorem C10_witness :
    parse_frontmatter (fun _ => .err) "plain note" = ([], "plain note") :=
  (C10_parse_frontmatter_total (fun _ => .err) "plain note").2.1 (by decide)

/-- One category's configuration under `categories:` in config.yaml — either
the legacy plain path string or a dict with an optional `path` key. -/
inductive CatEntry where
  | legacy (path : String)
  | modern (path : Option String)
deriving DecidableEq

/-- The static, already-merged settings the scripts read from config.yaml. -/
structure Config where
  categories : List (String × CatEntry)
  handles : List String
  feedbackEnabled : Bool
  confirmations : Bool

/-- get_category_list: category names in configuration order. -/
def get_category_list (cfg : Config) : List String := cfg.categories.map (·.1)

/-- Python `str.title()` (ASCII): uppercase each letter that follows a
non-letter, lowercase the rest. -/
def pyTitleAux : Bool → List Char → List Char
  | _, [] => []
  | prev, c :: cs =>
    (if c.isAlpha then (if prev then c.toLower else c.toUpper) else c) ::
      pyTitleAux c.isAlpha cs

/-- Python `s.title()`. -/
def pyTitle (s : String) : String := .mk (pyTitleAux false s.toList)

/-- get_category_path from process_inbox.py: the configured `path` of a
category, defaulting to `Second Brain/<Category>`. Paths are kept
vault-relative throughout the model. -/
def get_category_path (cfg : Config) (category : String) : String :=
  match alGet cfg.categories category with
  | some (.legacy p) => p
  | some (.modern po) => po.getD ("Second Brain/" ++ pyTitle category)
  | none => "Second Brain/" ++ pyTitle category

/-- The characters removed by sanitize_filename's first regex. -/
def badChar (c : Char) : Bool :=
  c = '<' || c = '>' || c = ':' || c = '"' || c = '/' || c = '\\' ||
    c = '|' || c = '?' || c = '*'

/-- `re.sub(r'\s+', '-', s)`: replace each maximal whitespace run by `-`. -/
def collapseWsAux : Bool → List Char → List Char
  | _, [] => []
  | inWs, c :: cs =>
    if isPySpace c then
      (if inWs then collapseWsAux true cs else '-' :: collapseWsAux true cs)
    else c :: collapseWsAux false cs

/-- sanitize_filename from process_inbox.py: drop unsafe characters,
collapse whitespace runs to hyphens, truncate to 50, strip hyphens. -/
def sanitize_filename (name : String) : String :=
  let safe := name.toList.filter (fun c => !badChar c)
  let safe2 := collapseWsAux false safe
  .mk (chStripChar '-' (safe2.take 50))

/-- The ASCII digit character for `d < 10`. -/
def digitChar (d : ℕ) : Char := Char.ofNat (48 + d)

/-- Little-endian decimal digit characters of `n`, fuel-driven (`n` units of
fuel always suffice since `n / 10 < n`). -/
def natDigitsFuel : ℕ → ℕ → List Char
  | 0, _ => []
  | _ + 1, 0 => []
  | fuel + 1, n + 1 => digitChar ((n + 1) % 10) :: natDigitsFuel fuel ((n + 1) / 10)

/-- Decimal rendering of a natural number (Python f-string `{n}`),
as a character list. -/
def chNatStr (n : ℕ) : List Char :=
  if n = 0 then ['0'] else (natDigitsFuel n n).reverse

/-- Value of a little-endian digit-character list (round-trip inverse of
`natDigitsFuel`, used only to prove injectivity). -/
def chNatVal : List Char → ℕ
  | [] => 0
  | c :: cs => (c.toNat - 48) + 10 * chNatVal cs

theorem digitChar_toNat {d : ℕ} (h : d < 10) : (digitChar d).toNat = 48 + d := by
  interval_cases d <;> decide

theorem chNatVal_natDigitsFuel :
    ∀ fuel n, n ≤ fuel → chNatVal (natDigitsFuel fuel n) = n := by
  intro fuel
  induction fuel with
  | zero =>
    intro n hn
    interval_cases n
    rfl
  | succ fuel ih =>
    intro n hn
    match n with
    | 0 => rfl
    | n + 1 =>
      have hd : (n + 1) % 10 < 10 := Nat.mod_lt _ (by norm_num)
      have hdiv : (n + 1) / 10 ≤ fuel := by
        have h1 : (n + 1) / 10 < n + 1 := Nat.div_lt_self (Nat.succ_pos n) (by norm_num)
        omega
      rw [natDigitsFuel, chNatVal, digitChar_toNat hd, ih _ hdiv]
      omega

theorem chNatStr_injective : Function.Injective chNatStr := by
  have round : ∀ n, chNatVal (chNatStr n).reverse = n := by
    intro n
    match n with
    | 0 => rfl
    | n + 1 =>
      rw [chNatStr, if_neg (Nat.succ_ne_zero n), List.reverse_reverse]
      exact chNatVal_natDigitsFuel (n + 1) (n + 1) le_rfl
  intro a b h
  rw [← round a, ← round b, h]

/-- The collision candidate `f"{base}-{suffix}.md"` tried by
file_to_destination's while loop (`base` already includes the directory). -/
def suffixName (base : List Char) (n : ℕ) : List Char :=
  base ++ '-' :: (chNatStr n ++ ".md".toList)

theorem suffixName_injective (base : List Char) :
    Function.Injective (suffixName base) := by
  intro a b h
  unfold suffixName at h
  have h1 := List.append_cancel_left h
  injection h1 with _ h2
  exact chNatStr_injective (List.append_cancel_right h2)

/-- `dest_path.exists()` against the destination zone. -/
def destExists (dests : List (String × String)) (p : String) : Bool :=
  (alGet dests p).isSome

theorem alGet_isSome_iff {α : Type} (l : List (String × α)) (k : String) :
    (alGet l k).isSome ↔ k ∈ l.map Prod.fst := by
  induction l with
  | nil => simp [alGet]
  | cons hd tl ih =>
    obtain ⟨k', v⟩ := hd
    by_cases h : k' = k
    · subst h; simp [alGet]
    · simp only [alGet, if_neg h, List.map_cons, List.mem_cons, ih]
      constructor
      · intro hm; exact Or.inr hm
      · rintro (rfl | hm)
        · exact absurd rfl h
        · exact hm

/-- The while loop of file_to_destination: starting from suffix `n`, find the
first suffix whose rendered name is not taken; fuel-driven (one probe per
unit), with `dests.length + 1` fuel a free suffix is always reached. -/
def free_suffix_search (dests : List (String × String)) (base : List Char) :
    ℕ → ℕ → Option ℕ
  | 0, _ => none
  | fuel + 1, n =>
    if destExists dests (.mk (suffixName base n)) then
      free_suffix_search dests base fuel (n + 1)
    else some n

theorem free_suffix_search_none (dests : List (String × String)) (base : List Char) :
    ∀ fuel n, free_suffix_search dests base fuel n = none →
      ∀ k < fuel, destExists dests (.mk (suffixName base (n + k))) = true := by
  intro fuel
  induction fuel with
  | zero => intro n _ k hk; omega
  | succ fuel ih =>
    intro n h k hk
    rw [free_suffix_search] at h
    by_cases hc : destExists dests (.mk (suffixName base n)) = true
    · rw [if_pos hc] at h
      match k with
      | 0 => simpa using hc
      | k + 1 =>
        have hstep := ih (n + 1) h k (by omega)
        have harith : n + 1 + k = n + (k + 1) := by omega
        rwa [harith] at hstep
    · rw [if_neg hc] at h
      cases h

theorem free_suffix_search_some (dests : List (String × String)) (base : List Char) :
    ∀ fuel n m, free_suffix_search dests base fuel n = some m →
      destExists dests (.mk (suffixName base m)) = false := by
  intro fuel
  induction fuel with
  | zero => intro n m h; cases h
  | succ fuel ih =>
    intro n m h
    rw [free_suffix_search] at h
    by_cases hc : destExists dests (.mk (suffixName base n)) = true
    · rw [if_pos hc] at h
      exact ih (n + 1) m h
    · rw [if_neg hc] at h
      cases h
      exact Bool.eq_false_iff.mpr hc

theorem free_suffix_search_succeeds (dests : List (String × String)) (base : List Char) :
    ∃ m, free_suffix_search dests base (dests.length + 1) 1 = some m := by
  cases heq : free_suffix_search dests base (dests.length + 1) 1 with
  | some m => exact ⟨m, rfl⟩
  | none =>
    exfalso
    have hall := free_suffix_search_none dests base _ _ heq
    have hsub : ∀ s ∈ (List.range' 1 (dests.length + 1)).map
        (fun n => String.mk (suffixName base n)), s ∈ dests.map Prod.fst := by
      intro s hs
      simp only [List.mem_map, List.mem_range'_1] at hs
      obtain ⟨n, ⟨h1, h2⟩, rfl⟩ := hs
      have hthis := hall (n - 1) (by omega)
      rw [show 1 + (n - 1) = n by omega] at hthis
      rw [← alGet_isSome_iff]
      simpa [destExists] using hthis
    have hnd : ((List.range' 1 (dests.length + 1)).map
        (fun n => String.mk (suffixName base n))).Nodup := by
      apply List.Nodup.map_on
      · intro x _ y _ hxy
        have hxy2 : suffixName base x = suffixName base y := by
          injection hxy
        exact suffixName_injective base hxy2
      · exact List.nodup_range' _ _
    have h1 : ((List.range' 1 (dests.length + 1)).map
        (fun n => String.mk (suffixName base n))).toFinset.card = dests.length + 1 := by
      rw [List.toFinset_card_of_nodup hnd]
      simp
    have h2 : ((List.range' 1 (dests.length + 1)).map
        (fun n => String.mk (suffixName base n))).toFinset ⊆
        (dests.map Prod.fst).toFinset := by
      intro x hx
      rw [List.mem_toFinset] at *
      exact hsub x hx
    have h3 := Finset.card_le_card h2
    have h4 := List.toFinset_card_le (dests.map Prod.fst)
    rw [h1] at h3
    simp only [List.length_map] at h4
    omega

/-- An item file: parsed front matter plus free-text body. Reading and
writing through `parse_frontmatter` / `write_file_with_frontmatter` is
modelled as the identity round trip on this parsed view. -/
structure SBFile where
  fm : Frontmatter
  body : String
deriving DecidableEq

/-- The classifier's JSON reply `{category, confidence, name, tags, reason?}`;
every field the code reads with `.get` is optional here. -/
structure Classification where
  category : Option String
  confidence : Option ℚ
  name : Option String
  tags : List String
  reason : Option String
deriving DecidableEq

/-- The on-disk state the scripts touch: the Inbox holding area (`*.md` at
top level), the Inbox/Processed archive, the category destination folders
(keyed by vault-relative path, contents raw text), and Inbox-Log.md. -/
structure FS where
  inbox : List (String × SBFile)
  processed : List (String × SBFile)
  dests : List (String × String)
  log : Option String
deriving DecidableEq

/-- Where find_file_by_guid located an item. -/
inductive Loc where
  | inbox (fname : String)
  | processed (fname : String)
  | dest (path : String)
deriving DecidableEq

/-- `Path(p).name`: the part after the last `/`. -/
def baseName (p : String) : String :=
  .mk (p.toList.reverse.takeWhile (· ≠ '/')).reverse

/-- `filepath.name` of a located file. -/
def locName : Loc → String
  | .inbox f => f
  | .processed f => f
  | .dest p => baseName p

/-- Remove the file at a location (the source half of `shutil.move`). -/
def fsRemoveAt (fs : FS) : Loc → FS
  | .inbox f => { fs with inbox := alRemove fs.inbox f }
  | .processed f => { fs with processed := alRemove fs.processed f }
  | .dest p => { fs with dests := alRemove fs.dests p }

/-- Read the file at a location; destination copies are raw text and go
through parse_frontmatter, zone files are stored parsed. -/
def readAt (y : String → YamlResult) (fs : FS) : Loc → Frontmatter × String
  | .inbox f =>
    match alGet fs.inbox f with
    | some file => (file.fm, file.body)
    | none => ([], "")
  | .processed f =>
    match alGet fs.processed f with
    | some file => (file.fm, file.body)
    | none => ([], "")
  | .dest p =>
    match alGet fs.dests p with
    | some content => parse_frontmatter y content
    | none => ([], "")

/-- The stem part of get_destination_path: the category's folder joined
with the sanitized title. The `classification['category']` index is
modelled with the same `needs_review` default as process_capture's `.get`,
which is equivalent at both call sites (both guarantee the key is
present). -/
def destBase (cfg : Config) (cls : Classification) : String :=
  get_category_path cfg (cls.category.getD "needs_review") ++ "/" ++
    sanitize_filename (cls.name.getD "Untitled")

/-- The destination-path computation at the top of file_to_destination:
`<category path>/<sanitized title>.md`, with the while loop appending
`-1`, `-2`, … until an unused name is found when the plain name is taken. -/
def destPathFor (cfg : Config) (dests : List (String × String))
    (cls : Classification) : String :=
  if destExists dests (destBase cfg cls ++ ".md") then
    match free_suffix_search dests (destBase cfg cls).toList (dests.length + 1) 1 with
    | some n => String.mk (suffixName (destBase cfg cls).toList n)
    | none => destBase cfg cls ++ ".md"
  else destBase cfg cls ++ ".md"

/-- file_to_destination from process_inbox.py: compute the collision-free
destination path, write the body-only copy there, update the original's
front matter with the classification results and move it to the
Inbox/Processed archive. `loc` is where the original lives (the Inbox for
fresh captures, any zone for fix-command targets); `now` models
`datetime.now().isoformat()`. Returns the destination path and new state. -/
def file_to_destination (cfg : Config) (fs : FS) (loc : Loc) (fm : Frontmatter)
    (body : String) (cls : Classification) (now : String) : String × FS :=
  let category := cls.category.getD "needs_review"
  let name := cls.name.getD "Untitled"
  let destPath := destPathFor cfg fs.dests cls
  let fm1 := fmUpdate fm [("processed", .bool true), ("classified_as", .str category),
    ("destination", .str destPath), ("classified_at", .str now),
    ("confidence", .rat (cls.confidence.getD 0)), ("name", .str name)]
  let fm2 := if !cls.tags.isEmpty then fmUpdate fm1 [("tags", .vlist cls.tags)] else fm1
  let fs1 := { fs with dests := alSet fs.dests destPath (pyStrip body ++ "\n") }
  let fs2 := fsRemoveAt fs1 loc
  (destPath, { fs2 with processed := alSet fs2.processed (locName loc) ⟨fm2, body⟩ })

/-- mark_needs_review from process_inbox.py: set `needs_review`, persist the
confidence and the optional reason; the file stays in the Inbox. -/
def mark_needs_review (fs : FS) (fname : String) (f : SBFile)
    (cls : Classification) (now : String) : FS :=
  let fm1 := fmUpdate f.fm [("needs_review", .bool true),
    ("classified_at", .str now), ("confidence", .rat (cls.confidence.getD 0))]
  let fm2 :=
    match cls.reason with
    | some r => if r != "" then fmUpdate fm1 [("review_reason", .str r)] else fm1
    | none => fm1
  { fs with inbox := alSet fs.inbox fname ⟨fm2, f.body⟩ }

/-- The summary dict process_capture / process_fix_command return; fields
the Python dicts omit are the defaults append_to_inbox_log's `.get` calls
supply (empty string, 0.0, false). -/
structure PResult where
  category : String
  path : String
  name : String
  confidence : ℚ
  original : String
  fixed : Bool
deriving DecidableEq

/-- process_capture from process_inbox.py: read the pending file, skip it
when the body is empty, ask the classifier (`classify` models
classify_with_claude, returning `none` on call failure, timeout or
unparsable output), then either mark for review (stated category
`needs_review` or confidence below 0.6) or file to the destination. -/
def process_capture (cfg : Config) (classify : String → Option Classification)
    (fs : FS) (fname : String) (now : String) : Option PResult × FS :=
  match alGet fs.inbox fname with
  | none => (none, fs)
  | some f =>
    if pyStrip f.body = "" then (none, fs)
    else
      match classify f.body with
      | none => (none, fs)
      | some cls =>
        let category := cls.category.getD "needs_review"
        let confidence := cls.confidence.getD 0
        if category = "needs_review" || confidence < mkRat 6 10 then
          let cls1 := { cls with category := some "needs_review" }
          (some ⟨"needs_review", fname, "", 0, "", false⟩,
            mark_needs_review fs fname f cls1 now)
        else
          let step := file_to_destination cfg fs (.inbox fname) f.fm f.body cls now
          (some ⟨category, step.1, cls.name.getD "", confidence,
            .mk (f.body.toList.take 50), false⟩, step.2)

/-- `frontmatter.get('imessage_guid') == guid` (a missing key is `None`,
which never equals a truthy guid). -/
def guidMatches (guid : Value) (fm : Frontmatter) : Bool :=
  fmGet fm "imessage_guid" == some guid

/-- The Inbox / Processed glob loops of find_file_by_guid. -/
def findIn (guid : Value) : List (String × SBFile) → Option String
  | [] => none
  | (fname, f) :: rest => if guidMatches guid f.fm then some fname else findIn guid rest

/-- Python `s.endswith(pat)`. -/
def pyEndsWith (s pat : String) : Bool := pat.toList.isSuffixOf s.toList

/-- The `category_path.rglob('*.md')` loop of find_file_by_guid: destination
copies are raw text, so their metadata is re-parsed on the fly. -/
def findInDests (y : String → YamlResult) (dir : String) (guid : Value) :
    List (String × String) → Option String
  | [] => none
  | (p, content) :: rest =>
    if pyStartsWith p (dir ++ "/") && pyEndsWith p ".md" &&
        guidMatches guid (parse_frontmatter y content).1 then some p
    else findInDests y dir guid rest

/-- The outer `for category in CONFIG['categories']` loop of
find_file_by_guid. -/
def findInCats (y : String → YamlResult) (dests : List (String × String))
    (guid : Value) : List String → Option String
  | [] => none
  | dir :: dirs =>
    match findInDests y dir guid dests with
    | some p => some p
    | none => findInCats y dests guid dirs

/-- find_file_by_guid from process_inbox.py: a falsy guid finds nothing;
otherwise search the Inbox, then Inbox/Processed, then every category
destination folder, for a file whose metadata carries the guid. -/
def find_file_by_guid (cfg : Config) (y : String → YamlResult) (fs : FS)
    (guid : Option Value) : Option Loc :=
  match guid with
  | none => none
  | some g =>
    if !g.truthy then none
    else
      match findIn g fs.inbox with
      | some f => some (.inbox f)
      | none =>
        match findIn g fs.processed with
        | some f => some (.processed f)
        | none =>
          match findInCats y fs.dests g
              (cfg.categories.map (fun kc => get_category_path cfg kc.1)) with
          | some p => some (.dest p)
          | none => none

/-- The string stored in a front-matter value (the capture script writes
`target_category` and guids as plain strings). -/
def valueAsStr : Option Value → String
  | some (.str s) => s
  | _ => ""

/-- The classification dict process_fix_command builds for the target: the
user's stated category with confidence fixed at 1.0, the target's stored
name (default: first body line truncated to 50) and tags. -/
def fixClassification (y : String → YamlResult) (fs : FS) (loc : Loc)
    (target_category : Option Value) : Classification :=
  { category := some (valueAsStr target_category)
    confidence := some 1
    name := some ((fmGetStr (readAt y fs loc).1 "name").getD
      (.mk (((pySplit (readAt y fs loc).2 "\n").headD "").toList.take 50)))
    tags :=
      match fmGet (readAt y fs loc).1 "tags" with
      | some (.vlist l) => l
      | _ => []
    reason := none }

/-- process_fix_command from process_inbox.py: bail out (state unchanged)
when the target category is falsy or `unknown`, or when the target item
cannot be located by its guid; otherwise re-file the target with full
confidence and delete the fix-command file. -/
def process_fix_command (cfg : Config) (y : String → YamlResult) (fs : FS)
    (fname : String) (now : String) : Option PResult × FS :=
  match alGet fs.inbox fname with
  | none => (none, fs)
  | some f =>
    let target_guid := fmGet f.fm "reply_to_guid"
    let target_category := fmGet f.fm "target_category"
    if !otruthy target_category || target_category == some (.str "unknown") then
      (none, fs)
    else
      match find_file_by_guid cfg y fs target_guid with
      | none => (none, fs)
      | some loc =>
        let cls := fixClassification y fs loc target_category
        let step := file_to_destination cfg fs loc (readAt y fs loc).1
          (readAt y fs loc).2 cls now
        (some ⟨valueAsStr target_category, step.1, "", 0, "", true⟩,
          { step.2 with inbox := alRemove step.2.inbox fname })

/-- Outcome of the external classifier subprocess call in
classify_with_claude: timeout, nonzero exit, or stdout handed to
parse_classification_response (whose result is `none` when the output
cannot be parsed as JSON). -/
inductive ClaudeOutcome where
  | timeout
  | callError (stderr : String)
  | output (parsed : Option Classification)

/-- classify_with_claude from process_inbox.py: every failure mode yields
`None`; only parsable output of a successful call yields a classification. -/
def classify_with_claude : ClaudeOutcome → Option Classification
  | .timeout => none
  | .callError _ => none
  | .output p => p

/-- find_needs_review_items (process_inbox.py and send_feedback.py):
Inbox items with truthy `needs_review` and falsy `feedback_sent`. -/
def find_needs_review_items (fs : FS) : List (String × SBFile) :=
  fs.inbox.filter fun e =>
    otruthy (fmGet e.2.fm "needs_review") && !otruthy (fmGet e.2.fm "feedback_sent")

/-- The body preview used in a feedback message: newlines flattened,
stripped, truncated to 50 with an ellipsis when longer. -/
def feedbackPreview (body : String) : String :=
  let one := String.mk (body.toList.map (fun c => if c = '\n' then ' ' else c))
  let prev := String.mk ((chStrip one.toList).take 50)
  if 50 < (chStrip body.toList).length then prev ++ "..." else prev

/-- The feedback request sent for a needs-review item, embedding its
transport guid in the `[SB:guid]` marker (send_feedback_messages in
process_inbox.py). -/
def feedbackMessage (cfg : Config) (fm : Frontmatter) (body : String) : String :=
  let guid := (fmGetStr fm "imessage_guid").getD "UNKNOWN"
  "[SB:" ++ guid ++ "] Unclear: \"" ++ feedbackPreview body ++ "\". Reply: " ++
    .mk (List.intercalate ['/'] ((get_category_list cfg).map String.toList))

/-- update_frontmatter from process_inbox.py / send_feedback.py: re-read the
file, apply the updates, write it back. -/
def update_frontmatter (fs : FS) (fname : String)
    (updates : List (String × Value)) : FS :=
  match alGet fs.inbox fname with
  | none => fs
  | some f => { fs with inbox := alSet fs.inbox fname ⟨fmUpdate f.fm updates, f.body⟩ }

/-- The per-item loop of send_feedback_messages: attempt one send per item
(`sendOk` models send_imessage's success), and mark `feedback_sent` (with
timestamp) only after a successful send. Returns the new state, the number
of successful sends, and the (item, message) attempts in order. -/
def sendFeedbackLoop (cfg : Config) (sendOk : String → Bool) (now : String) :
    List (String × SBFile) → FS → FS × ℕ × List (String × String)
  | [], fs => (fs, 0, [])
  | (fname, f) :: rest, fs =>
    let msg := feedbackMessage cfg f.fm f.body
    if sendOk msg then
      let fs1 := update_frontmatter fs fname
        [("feedback_sent", .bool true), ("feedback_sent_at", .str now)]
      let r := sendFeedbackLoop cfg sendOk now rest fs1
      (r.1, r.2.1 + 1, (fname, msg) :: r.2.2)
    else
      let r := sendFeedbackLoop cfg sendOk now rest fs
      (r.1, r.2.1, (fname, msg) :: r.2.2)

/-- send_feedback_messages from process_inbox.py: skip entirely when
feedback is disabled or no handles are configured; otherwise run the send
loop over the needs-review snapshot. `sendOk recipient message` models
send_imessage. -/
def send_feedback_messages (cfg : Config) (sendOk : String → String → Bool)
    (fs : FS) (now : String) : FS × ℕ × List (String × String) :=
  if !cfg.feedbackEnabled then (fs, 0, [])
  else if cfg.handles.isEmpty then (fs, 0, [])
  else sendFeedbackLoop cfg (sendOk (cfg.handles.headD "")) now
    (find_needs_review_items fs) fs

/-- The Status column of a log row. -/
def logStatus (r : PResult) : String :=
  if r.fixed then "Fixed"
  else if r.category = "needs_review" then "Needs Review"
  else "Filed"

/-- The Destination column of a log row. -/
def logDestStr (r : PResult) : String :=
  if r.fixed then "[[" ++ r.path ++ "]]"
  else if r.category = "needs_review" then "(kept in Inbox)"
  else "[[" ++ r.path ++ "]]"

/-- The markdown table row append_to_inbox_log builds from a result. -/
def logEntry (timeStr : String) (r : PResult) : String :=
  let original :=
    String.mk ((r.original.toList.take 50).map (fun c => if c = '|' then '/' else c))
  "| " ++ timeStr ++ " | " ++ original ++ "... | " ++ r.category ++ " | " ++
    logDestStr r ++ " | " ++ logStatus r ++ " |"

/-- The table header row written when a new day section is created. -/
def tableHeader : String := "| Time | Original | Filed To | Destination | Status |"

/-- The table separator row written when a new day section is created. -/
def tableSep : String := "|------|----------|----------|-------------|--------|"

/-- The first branch of append_to_inbox_log: the day heading is nowhere in
the log, so insert a fresh section (blank line, heading, blank line, table
header, separator, entry) right after the first title line; later lines are
left untouched once the insertion happened. -/
def insertNewSection (hdr entry : String) : List String → List String
  | [] => []
  | l :: ls =>
    if pyStartsWith l "# " then
      l :: "" :: hdr :: "" :: tableHeader :: tableSep :: entry :: ls
    else l :: insertNewSection hdr entry ls

/-- The second branch of append_to_inbox_log: after the line that strips to
the day heading, insert the entry right after the first table separator row
(a line starting with `|` and containing `---`). -/
def insertIntoSection (hdr entry : String) : Bool → List String → List String
  | _, [] => []
  | found, l :: ls =>
    if pyStrip l = hdr then l :: insertIntoSection hdr entry true ls
    else if found && pyStartsWith l "|" && pyContains l "---" then l :: entry :: ls
    else l :: insertIntoSection hdr entry found ls

/-- `'\n'.join(lines)`. -/
def joinLines (ls : List String) : String :=
  .mk (List.intercalate ['\n'] (ls.map String.toList))

/-- append_to_inbox_log from process_inbox.py: no-op on a falsy result;
otherwise create the log if missing, then insert the new row into today's
section (creating the section right after the title if it is the day's
first entry). `today` is `%Y%m%d`, `timeStr` is `%H:%M`. -/
def append_to_inbox_log (fs : FS) (today timeStr : String)
    (result : Option PResult) : FS :=
  match result with
  | none => fs
  | some r =>
    let entry := logEntry timeStr r
    let content := fs.log.getD "# Inbox Processing Log\n\n"
    let hdr := "## " ++ today
    let lines := pySplit content "\n"
    let newLines :=
      if !pyContains content hdr then insertNewSection hdr entry lines
      else insertIntoSection hdr entry false lines
    { fs with log := some (joinLines newLines) }

/-- A character matched by the `[A-F0-9-]` class of FEEDBACK_PATTERN
(case-insensitive). -/
def isHexDash (c : Char) : Bool :=
  (48 ≤ c.toNat && c.toNat ≤ 57) || (65 ≤ c.toNat && c.toNat ≤ 70) ||
    (97 ≤ c.toNat && c.toNat ≤ 102) || c = '-'

/-- Match `\[SB:([A-F0-9-]+)\]` (IGNORECASE) anchored at the head of the
character list, returning the captured group. The class run is maximal;
since `]` is outside the class, backtracking cannot produce other matches. -/
def markerAt : List Char → Option (List Char)
  | '[' :: s :: b :: ':' :: rest =>
    if (s = 'S' || s = 's') && (b = 'B' || b = 'b') then
      let run := rest.takeWhile isHexDash
      if !run.isEmpty then
        match rest.dropWhile isHexDash with
        | ']' :: _ => some run
        | _ => none
      else none
    else none
  | _ => none

/-- `FEEDBACK_PATTERN.search`: leftmost match of the `[SB:guid]` marker. -/
def searchMarker : List Char → Option (List Char)
  | [] => none
  | c :: rest =>
    match markerAt (c :: rest) with
    | some g => some g
    | none => searchMarker rest

/-- A row of the Messages database fetched by guid: (text, attributedBody);
the blob column is modelled by its `decode('utf-8', errors='ignore')`
form (that decode never raises). -/
abbrev MsgRow := Option String × Option String

/-- get_fix_target_guid from imessage_capture.py: a falsy parent id resolves
to nothing; otherwise look the parent message up (`db` models the sqlite
query), search its text — and, failing that, its attributedBody blob — for
the embedded `[SB:guid]` marker, and fall back to the parent id itself. -/
def get_fix_target_guid (db : String → Option MsgRow) (tog : Option String) :
    Option String :=
  match tog with
  | none => none
  | some g =>
    if g = "" then none
    else
      let found :=
        match db g with
        | none => none
        | some (t, ab) =>
          let fromText :=
            match t with
            | some s => if s != "" then (searchMarker s.toList).map String.mk else none
            | none => none
          match fromText with
          | some x => some x
          | none =>
            match ab with
            | some s => if s != "" then (searchMarker s.toList).map String.mk else none
            | none => none
      match found with
      | some x => some x
      | none => some g

/-- is_system_message from imessage_capture.py: truthy text starting with
the `[SB` sentinel. -/
def is_system_message (text : String) : Bool :=
  text != "" && pyStartsWith text "[SB"

/-- `FIX_PATTERN.match(text.strip())` of parse_fix_command: does the
stripped text match `^fix:\s*(.+)` case-insensitively? Since `.` does not
match a newline, the part after `fix:` must contain some non-newline
character (any whitespace before it is eaten by `\s*`). This is the
`is_fix` component of parse_fix_command; the captured group only feeds the
category parser, on which no claim depends. -/
def is_fix_command (text : String) : Bool :=
  match chStrip text.toList with
  | f :: i :: x :: ':' :: rest =>
    (f.toLower = 'f' && i.toLower = 'i' && x.toLower = 'x') &&
      rest.any (fun c => c != '\n')
  | _ => false

/-- One row fetched by fetch_new_messages (rowid and is_from_me are unused
by the dispatch). `date` is the Apple nanosecond timestamp. -/
structure Msg where
  date : ℕ
  text : String
  guid : String
  threadOriginatorGuid : Option String
deriving DecidableEq

/-- Which branch of the ingestor's per-message dispatch fires: skip a
system message, write a fix command (reply-based, carrying the raw parent
guid, or legacy `fix:`-prefixed with no parent), or write a capture. -/
inductive MsgAction where
  | skip
  | fixReply (parentGuid : String)
  | fixLegacy
  | capture
deriving DecidableEq

/-- The per-message dispatch of main() in imessage_capture.py. -/
def classify_message (m : Msg) : MsgAction :=
  if is_system_message m.text then .skip
  else
    match m.threadOriginatorGuid with
    | some p => .fixReply p
    | none => if is_fix_command m.text then .fixLegacy else .capture

/-- The `newest_ts` fold of main() in imessage_capture.py: updated for
every message of the batch, skipped system messages included. -/
def newestTs (lastTs : Option ℕ) (msgs : List Msg) : Option ℕ :=
  msgs.foldl (fun acc m =>
    match acc with
    | none => some m.date
    | some t => if m.date > t then some m.date else acc) lastTs

/-- The checkpoint persisted at the end of main(): untouched when the batch
is empty (early return) or when the final `newest_ts` is falsy. -/
def saved_checkpoint (lastTs : Option ℕ) (msgs : List Msg) : Option ℕ :=
  if msgs.isEmpty then lastTs
  else
    match newestTs lastTs msgs with
    | some t => if t ≠ 0 then some t else lastTs
    | none => lastTs

/-- One iteration of main()'s per-file loop in process_inbox.py: dispatch on
the `type` front-matter field (fix command vs capture), then append the
result, if any, to the activity log. -/
def processOneFile (cfg : Config) (y : String → YamlResult)
    (classify : String → Option Classification) (fs : FS) (fname : String)
    (today timeStr now : String) : Option PResult × FS :=
  match alGet fs.inbox fname with
  | none => (none, fs)
  | some f =>
    if (fmGetStr f.fm "type").getD "capture" = "fix_command" then
      let r := process_fix_command cfg y fs fname now
      (r.1, append_to_inbox_log r.2 today timeStr r.1)
    else
      let r := process_capture cfg classify fs fname now
      (r.1, append_to_inbox_log r.2 today timeStr r.1)

/-- A sample two-category configuration used by concrete witnesses. -/
def cfg0 : Config :=
  { categories := [("tasks", .modern (some "Second Brain/Tasks")), ("ideas", .modern none)]
    handles := ["me@example.com"]
    feedbackEnabled := true
    confirmations := true }

/-- A yaml oracle for witnesses (never consulted on zone files, which the
model stores parsed; destination copies are body-only text). -/
def yNone : String → YamlResult := fun _ => .err

/-- A sample pending capture file. -/
def capFile : SBFile :=
  { fm := [("captured", .str "2026-01-01T10:00:00"), ("source", .str "imessage"),
      ("imessage_guid", .str "ABC-123"), ("type", .str "capture"),
      ("processed", .bool false)]
    body := "Buy milk" }

/-- A sample state: one pending capture, empty archive and destinations. -/
def fs0 : FS := { inbox := [("cap.md", capFile)], processed := [], dests := [], log := none }

/-- C6: when the external classifier call fails, times out, or returns
output that cannot be parsed as JSON (all the cases where
classify_with_claude yields none), processing a pending capture item
performs no mutation at all: the result is none and the state — the item's
file, the destination and archive zones, and the activity log — is exactly
the prior state. -/
theorem C6_classifier_failure_no_mutation (cfg : Config) (y : String → YamlResult)
    (o : ClaudeOutcome) (fs : FS) (fname today timeStr now : String) (f : SBFile)
    (hf : alGet fs.inbox fname = some f)
    (htype : (fmGetStr f.fm "type").getD "capture" ≠ "fix_command")
    (hfail : classify_with_claude o = none) :
    processOneFile cfg y (fun _ => classify_with_claude o) fs fname today timeStr now
      = (none, fs) := by
  unfold processOneFile
  rw [hf]
  simp only [if_neg htype]
  unfold process_capture
  rw [hf, hfail]
  by_cases hb : pyStrip f.body = ""
  · simp [hb, append_to_inbox_log]
  · simp [hb, append_to_inbox_log]

/-- Witness for C6: a classifier timeout leaves the sample state untouched. -/
theorem C6_witness :
    processOneFile cfg0 yNone (fun _ => classify_with_claude .timeout) fs0 "cap.md"
      "20260101" "10:00" "T" = (none, fs0) :=
  C6_classifier_failure_no_mutation cfg0 yNone .timeout fs0 "cap.md" "20260101"
    "10:00" "T" capFile (by decide) (by decide) rfl

/-- C2: correction-target resolution for a nonempty parent id: (1) when the
parent message's text contains the `[SB:guid]` marker, the embedded id is
returned; (2) when the primary text field is absent (NULL or empty) and the
raw-bytes encoded body contains the marker, the embedded id is returned;
(3, 4) when the parent is unknown or no marker is found anywhere, the
parent id itself is returned. -/
theorem C2_resolve_parent (db : String → Option MsgRow) (g : String) (hg : g ≠ "") :
    (∀ t ab x, db g = some (some t, ab) → t ≠ "" → searchMarker t.toList = some x →
      get_fix_target_guid db (some g) = some (String.mk x)) ∧
    (∀ t ab x, db g = some (t, some ab) → (t = none ∨ t = some "") → ab ≠ "" →
      searchMarker ab.toList = some x →
      get_fix_target_guid db (some g) = some (String.mk x)) ∧
    (db g = none → get_fix_target_guid db (some g) = some g) ∧
    (∀ t ab, db g = some (t, ab) →
      (∀ s, t = some s → s ≠ "" → searchMarker s.toList = none) →
      (∀ s, ab = some s → s ≠ "" → searchMarker s.toList = none) →
      get_fix_target_guid db (some g) = some g) := by
  refine ⟨?_, ?_, ?_, ?_⟩
  · intro t ab x hdb ht hx
    simp only [get_fix_target_guid, if_neg hg, hdb]
    have hbt : (t != "") = true := by simpa using ht
    have hx2 : searchMarker t.data = some x := hx
    simp [hbt, hx2]
  · intro t ab x hdb htabs hab hx
    simp only [get_fix_target_guid, if_neg hg, hdb]
    have hbab : (ab != "") = true := by simpa using hab
    have hx2 : searchMarker ab.data = some x := hx
    rcases htabs with rfl | rfl
    · simp [hbab, hx2]
    · simp [hbab, hx2]
  · intro hdb
    simp [get_fix_target_guid, if_neg hg, hdb]
  · intro t ab hdb ht hab
    simp only [get_fix_target_guid, if_neg hg, hdb]
    have hft :
        (match t with
          | some s => if s != "" then (searchMarker s.toList).map String.mk else none
          | none => none) = none := by
      match t with
      | none => rfl
      | some s =>
        by_cases hs : s = ""
        · subst hs; rfl
        · have hmk : searchMarker s.data = none := ht s rfl hs
          simp [hmk, show (s != "") = true by simpa using hs]
    rw [hft]
    have hfab :
        (match ab with
          | some s => if s != "" then (searchMarker s.toList).map String.mk else none
          | none => none) = none := by
      match ab with
      | none => rfl
      | some s =>
        by_cases hs : s = ""
        · subst hs; rfl
        · have hmk : searchMarker s.data = none := hab s rfl hs
          simp [hmk, show (s != "") = true by simpa using hs]
    rw [hfab]

/-- The parent-message table used by C2's witness. -/
def db0 : String → Option MsgRow := fun g =>
  if g = "N1" then some (some "[SB:ABC-123] Unclear: reply please", none)
  else if g = "N2" then some (none, some "streamtyped [sb:DEF-4] tail")
  else none

/-- Witness for C2: text marker, attributedBody fallback, and the
no-marker fallback to the parent id itself. -/
theorem C2_witness :
    get_fix_target_guid db0 (some "N1") = some "ABC-123" ∧
    get_fix_target_guid db0 (some "N2") = some "DEF-4" ∧
    get_fix_target_guid db0 (some "X9") = some "X9" := by
  refine ⟨?_, ?_, ?_⟩
  · exact (C2_resolve_parent db0 "N1" (by decide)).1
      "[SB:ABC-123] Unclear: reply please" none "ABC-123".toList
      (by decide) (by decide) (by decide)
  · exact (C2_resolve_parent db0 "N2" (by decide)).2.1
      none "streamtyped [sb:DEF-4] tail" "DEF-4".toList
      (by decide) (Or.inl rfl) (by decide) (by decide)
  · exact (C2_resolve_parent db0 "X9" (by decide)).2.2.1 (by decide)

theorem newestTs_cons_some (a : ℕ) (m : Msg) (rest : List Msg) :
    newestTs (some a) (m :: rest) = newestTs (some (max a m.date)) rest := by
  unfold newestTs
  simp only [List.foldl_cons]
  congr 1
  by_cases h : m.date > a
  · simp [h, Nat.max_eq_right (le_of_lt h)]
  · simp [h, Nat.max_eq_left (Nat.le_of_not_lt h)]

theorem newestTs_eq_max (msgs : List Msg) :
    ∀ a, newestTs (some a) msgs = some (msgs.foldl (fun t m => max t m.date) a) := by
  induction msgs with
  | nil => intro a; rfl
  | cons m rest ih =>
    intro a
    rw [newestTs_cons_some, ih, List.foldl_cons]

theorem foldl_max_le (msgs : List Msg) :
    ∀ a N, a ≤ N → (∀ x ∈ msgs, x.date ≤ N) →
      msgs.foldl (fun t m => max t m.date) a ≤ N := by
  induction msgs with
  | nil => intro a N ha _; simpa using ha
  | cons m rest ih =>
    intro a N ha hall
    simp only [List.foldl_cons]
    exact ih _ N (max_le ha (hall m (List.mem_cons_self m rest)))
      (fun x hx => hall x (List.mem_cons_of_mem m hx))

theorem le_foldl_max (msgs : List Msg) :
    ∀ a, a ≤ msgs.foldl (fun t m => max t m.date) a := by
  induction msgs with
  | nil => intro a; exact le_rfl
  | cons m rest ih =>
    intro a
    simp only [List.foldl_cons]
    exact le_trans (le_max_left _ _) (ih _)

theorem date_le_foldl_max (msgs : List Msg) :
    ∀ a x, x ∈ msgs → x.date ≤ msgs.foldl (fun t m => max t m.date) a := by
  induction msgs with
  | nil => intro a x hx; cases hx
  | cons m rest ih =>
    intro a x hx
    simp only [List.foldl_cons]
    rcases List.mem_cons.mp hx with rfl | hx2
    · exact le_trans (le_max_right _ _) (le_foldl_max rest _)
    · exact ih _ x hx2

/-- C4: the ingestor's dispatch precedence — a `[SB`-sentinel message is
skipped; otherwise any message with a parent id is unconditionally a
correction (a fix command carrying that parent id); otherwise a legacy
`fix:`-prefixed message is a correction with no parent id; otherwise a new
capture. And the checkpoint persisted after the full batch is the newest
message timestamp seen, skipped messages included (the hypotheses record
what the fetch query guarantees: a nonempty batch of messages newer than
the prior checkpoint, with nonzero Apple timestamps). -/
theorem C4_ingest_dispatch_and_checkpoint (m : Msg) (lastTs : Option ℕ)
    (msgs : List Msg) :
    (is_system_message m.text = true → classify_message m = .skip) ∧
    (is_system_message m.text = false → ∀ p, m.threadOriginatorGuid = some p →
      classify_message m = .fixReply p) ∧
    (is_system_message m.text = false → m.threadOriginatorGuid = none →
      is_fix_command m.text = true → classify_message m = .fixLegacy) ∧
    (is_system_message m.text = false → m.threadOriginatorGuid = none →
      is_fix_command m.text = false → classify_message m = .capture) ∧
    (∀ N, msgs ≠ [] → N ∈ msgs.map Msg.date → (∀ x ∈ msgs, x.date ≤ N) →
      (∀ t, lastTs = some t → t ≤ N) → N ≠ 0 →
      saved_checkpoint lastTs msgs = some N) := by
  refine ⟨?_, ?_, ?_, ?_, ?_⟩
  · intro h; simp [classify_message, h]
  · intro h p hp; simp [classify_message, h, hp]
  · intro h hp hfix; simp [classify_message, h, hp, hfix]
  · intro h hp hfix; simp [classify_message, h, hp, hfix]
  · intro N hne hmem hle hlast h0
    have hnewest : newestTs lastTs msgs = some N := by
      obtain ⟨x, hxmem, hxdate⟩ := List.mem_map.mp hmem
      cases lastTs with
      | some t =>
        rw [newestTs_eq_max]
        congr 1
        refine le_antisymm (foldl_max_le msgs t N (hlast t rfl) hle) ?_
        calc N = x.date := hxdate.symm
          _ ≤ _ := date_le_foldl_max msgs t x hxmem
      | none =>
        match msgs, hne with
        | m0 :: rest, _ =>
          have hstep : newestTs none (m0 :: rest) = newestTs (some m0.date) rest := rfl
          rw [hstep, newestTs_eq_max]
          congr 1
          refine le_antisymm
            (foldl_max_le rest m0.date N (hle m0 (List.mem_cons_self m0 rest))
              (fun z hz => hle z (List.mem_cons_of_mem m0 hz))) ?_
          rcases List.mem_cons.mp hxmem with rfl | hx2
          · calc N = x.date := hxdate.symm
              _ ≤ _ := le_foldl_max rest x.date
          · calc N = x.date := hxdate.symm
              _ ≤ _ := date_le_foldl_max rest m0.date x hx2
    unfold saved_checkpoint
    rw [hnewest]
    simp [List.isEmpty_iff, hne, h0]

/-- Witness for C4 at a concrete batch: a skipped system message, a
reply-based correction, a legacy `fix:` correction, a plain capture, and
the checkpoint landing on the newest timestamp (that of a skipped
message). -/
theorem C4_witness :
    classify_message ⟨100, "[SB:ABC] Unclear", "g1", none⟩ = .skip ∧
    classify_message ⟨200, "move to tasks", "g2", some "parent-guid"⟩ =
      .fixReply "parent-guid" ∧
    classify_message ⟨300, "fix: tasks", "g3", none⟩ = .fixLegacy ∧
    classify_message ⟨310, "Buy milk", "g4", none⟩ = .capture ∧
    saved_checkpoint (some 50)
      [⟨300, "fix: tasks", "g3", none⟩, ⟨310, "Buy milk", "g4", none⟩,
        ⟨400, "[SB:ABC] Unclear", "g1", none⟩] = some 400 := by
  refine ⟨?_, ?_, ?_, ?_, ?_⟩
  · exact (C4_ingest_dispatch_and_checkpoint ⟨100, "[SB:ABC] Unclear", "g1", none⟩
      none []).1 (by decide)
  · exact (C4_ingest_dispatch_and_checkpoint ⟨200, "move to tasks", "g2",
      some "parent-guid"⟩ none []).2.1 (by decide) "parent-guid" rfl
  · exact (C4_ingest_dispatch_and_checkpoint ⟨300, "fix: tasks", "g3", none⟩
      none []).2.2.1 (by decide) rfl (by decide)
  · exact (C4_ingest_dispatch_and_checkpoint ⟨310, "Buy milk", "g4", none⟩
      none []).2.2.2.1 (by decide) rfl (by decide)
  · exact (C4_ingest_dispatch_and_checkpoint ⟨100, "x", "g", none⟩ (some 50)
      [⟨300, "fix: tasks", "g3", none⟩, ⟨310, "Buy milk", "g4", none⟩,
        ⟨400, "[SB:ABC] Unclear", "g1", none⟩]).2.2.2.2 400 (by decide)
      (by decide) (by decide) (fun t ht => by cases ht; decide) (by decide)

theorem alGet_alSet_same {α : Type} (l : List (String × α)) (k : String) (v : α) :
    alGet (alSet l k v) k = some v := by
  induction l with
  | nil => simp [alSet, alGet]
  | cons hd tl ih =>
    obtain ⟨k', w⟩ := hd
    by_cases h : k' = k
    · subst h; simp [alSet, alGet]
    · simp [alSet, alGet, h, ih]

theorem alGet_alSet_other {α : Type} (l : List (String × α)) (k k' : String) (v : α)
    (h : k' ≠ k) : alGet (alSet l k v) k' = alGet l k' := by
  induction l with
  | nil => simp [alSet, alGet, Ne.symm h]
  | cons hd tl ih =>
    obtain ⟨k0, w⟩ := hd
    by_cases h0 : k0 = k
    · subst h0
      simp [alSet, alGet, Ne.symm h]
    · simp [alSet, alGet, h0, ih]

theorem alGet_alRemove_same {α : Type} (l : List (String × α)) (k : String) :
    alGet (alRemove l k) k = none := by
  induction l with
  | nil => simp [alRemove, alGet]
  | cons hd tl ih =>
    obtain ⟨k0, w⟩ := hd
    by_cases h0 : k0 = k
    · simp [alRemove, alGet, h0, ih]
    · simp [alRemove, alGet, h0, ih]

theorem alGet_alRemove_other {α : Type} (l : List (String × α)) (k k' : String)
    (h : k' ≠ k) : alGet (alRemove l k) k' = alGet l k' := by
  induction l with
  | nil => simp [alRemove, alGet]
  | cons hd tl ih =>
    obtain ⟨k0, w⟩ := hd
    by_cases h0 : k0 = k
    · subst h0
      simp [alRemove, alGet, Ne.symm h, ih]
    · simp [alRemove, alGet, h0, ih]

theorem alSet_fresh {α : Type} (l : List (String × α)) (k : String) (v : α)
    (h : alGet l k = none) : alSet l k v = l ++ [(k, v)] := by
  induction l with
  | nil => simp [alSet]
  | cons hd tl ih =>
    obtain ⟨k0, w⟩ := hd
    rw [alGet] at h
    by_cases h0 : k0 = k
    · rw [if_pos h0] at h; cases h
    · rw [if_neg h0] at h
      simp [alSet, h0, ih h]

theorem destPathFor_fresh (cfg : Config) (dests : List (String × String))
    (cls : Classification) : alGet dests (destPathFor cfg dests cls) = none := by
  unfold destPathFor
  by_cases h0 : destExists dests (destBase cfg cls ++ ".md") = true
  · simp only [h0, if_true]
    obtain ⟨m, hm⟩ := free_suffix_search_succeeds dests (destBase cfg cls).toList
    rw [hm]
    have hfree := free_suffix_search_some dests _ _ _ _ hm
    simpa [destExists, Option.isSome_iff_exists] using hfree
  · simp only [Bool.not_eq_true] at h0
    simp only [h0, Bool.false_eq_true, if_false]
    simpa [destExists, Option.isSome_iff_exists] using h0

theorem findInDests_mem (y : String → YamlResult) (dir : String) (guid : Value) :
    ∀ dests p, findInDests y dir guid dests = some p → p ∈ dests.map Prod.fst := by
  intro dests
  induction dests with
  | nil => intro p h; cases h
  | cons hd tl ih =>
    intro p h
    obtain ⟨q, c⟩ := hd
    rw [findInDests] at h
    by_cases hc : (pyStartsWith q (dir ++ "/") && pyEndsWith q ".md" &&
        guidMatches guid (parse_frontmatter y c).1) = true
    · rw [if_pos hc] at h
      cases h
      simp
    · rw [if_neg hc] at h
      simpa using Or.inr (ih p h)

theorem findInCats_mem (y : String → YamlResult) (dests : List (String × String))
    (guid : Value) :
    ∀ dirs p, findInCats y dests guid dirs = some p → p ∈ dests.map Prod.fst := by
  intro dirs
  induction dirs with
  | nil => intro p h; cases h
  | cons dir dirs ih =>
    intro p h
    rw [findInCats] at h
    cases hf : findInDests y dir guid dests with
    | some q =>
      rw [hf] at h
      cases h
      exact findInDests_mem y dir guid dests p hf
    | none =>
      rw [hf] at h
      exact ih p h

theorem find_file_by_guid_dest_mem (cfg : Config) (y : String → YamlResult)
    (fs : FS) (guid : Option Value) (p : String)
    (h : find_file_by_guid cfg y fs guid = some (.dest p)) :
    p ∈ fs.dests.map Prod.fst := by
  cases guid with
  | none => cases h
  | some g =>
    simp only [find_file_by_guid] at h
    by_cases hg : (!g.truthy) = true
    · rw [if_pos hg] at h; cases h
    · rw [if_neg hg] at h
      cases h1 : findIn g fs.inbox with
      | some f => rw [h1] at h; cases h
      | none =>
        rw [h1] at h
        cases h2 : findIn g fs.processed with
        | some f => rw [h2] at h; cases h
        | none =>
          rw [h2] at h
          cases h3 : findInCats y fs.dests g
              (cfg.categories.map (fun kc => get_category_path cfg kc.1)) with
          | some q =>
            rw [h3] at h
            cases h
            exact findInCats_mem y fs.dests g _ p h3
          | none => rw [h3] at h; cases h

/-- find_file_by_guid on a falsy guid (absent `reply_to_guid`, empty string,
None) finds nothing: its first line is `if not guid: return None`. -/
theorem find_file_by_guid_falsy (cfg : Config) (y : String → YamlResult) (fs : FS)
    (guid : Option Value) (h : otruthy guid = false) :
    find_file_by_guid cfg y fs guid = none := by
  unfold find_file_by_guid
  match guid with
  | none => rfl
  | some g =>
    rw [otruthy] at h
    simp [h]

/-- A fix command whose front matter carries no truthy `reply_to_guid`
(the shape the ingestor writes for legacy `fix:` commands) is never
applied: process_fix_command bails out with the state unchanged, because
find_file_by_guid(None) returns None — there is no most-recent fallback
anywhere in the processor. -/
theorem fix_without_parent_no_op (cfg : Config) (y : String → YamlResult) (fs : FS)
    (fname now : String) (f : SBFile)
    (hf : alGet fs.inbox fname = some f)
    (hnoparent : otruthy (fmGet f.fm "reply_to_guid") = false) :
    process_fix_command cfg y fs fname now = (none, fs) := by
  unfold process_fix_command
  rw [hf]
  by_cases hc : (!otruthy (fmGet f.fm "target_category") ||
      fmGet f.fm "target_category" == some (.str "unknown")) = true
  · simp [hc]
  · simp only [Bool.not_eq_true] at hc
    have hfind := find_file_by_guid_falsy cfg y fs (fmGet f.fm "reply_to_guid") hnoparent
    simp [hc, hfind]

/-- C3's failing input: a pending legacy fix command with a recognized
target category and no reply_to_guid. -/
def fixNoParent : SBFile :=
  { fm := [("captured", .str "2026-01-02T09:00:00"), ("source", .str "imessage"),
      ("imessage_guid", .str "FIX-1"), ("type", .str "fix_command"),
      ("target_category", .str "tasks"), ("processed", .bool false)]
    body := "fix: tasks" }

/-- The most recent materialized item available when the fix command of C3's
failing input is processed: archived in Inbox/Processed with a filed copy. -/
def recentItem : SBFile :=
  { fm := [("captured", .str "2026-01-01T10:00:00"), ("imessage_guid", .str "ABC-123"),
      ("processed", .bool true), ("name", .str "Buy milk"),
      ("destination", .str "Second Brain/Ideas/Buy-milk.md")]
    body := "Buy milk" }

/-- The state for C3's failing input. -/
def fsFix : FS :=
  { inbox := [("fix.md", fixNoParent)]
    processed := [("recent.md", recentItem)]
    dests := [("Second Brain/Ideas/Buy-milk.md", "Buy milk\n")]
    log := none }

/-- C3: evaluating the code at the failing input — a correction with absent
parent id (legacy `fix:` syntax) and a most recent materialized item
present — shows the correction is NOT applied: the state is left completely
unchanged (the most recent item is not re-filed and the fix command stays
pending), contradicting the claim that the most recent filed/pending item
is re-filed. -/
theorem C3_fix_without_parent_never_applied :
    process_fix_command cfg0 yNone fsFix "fix.md" "T" = (none, fsFix) ∧
    (alGet fsFix.processed "recent.md").isSome = true :=
  ⟨fix_without_parent_no_op cfg0 yNone fsFix "fix.md" "T" fixNoParent
    (by decide) (by decide), by decide⟩

theorem file_to_destination_fst (cfg : Config) (fs : FS) (loc : Loc)
    (fm : Frontmatter) (body : String) (cls : Classification) (now : String) :
    (file_to_destination cfg fs loc fm body cls now).1 =
      destPathFor cfg fs.dests cls := rfl

/-- After file_to_destination, the body-only copy sits at the computed
destination path (when the original was a destination copy itself, its
removal cannot clobber the fresh path). -/
theorem file_to_destination_dests_get (cfg : Config) (fs : FS) (loc : Loc)
    (fm : Frontmatter) (body : String) (cls : Classification) (now : String)
    (hloc : ∀ p, loc = .dest p → p ∈ fs.dests.map Prod.fst) :
    alGet (file_to_destination cfg fs loc fm body cls now).2.dests
      (destPathFor cfg fs.dests cls) = some (pyStrip body ++ "\n") := by
  cases loc with
  | inbox f =>
    show alGet (alSet fs.dests (destPathFor cfg fs.dests cls) (pyStrip body ++ "\n"))
      (destPathFor cfg fs.dests cls) = some (pyStrip body ++ "\n")
    exact alGet_alSet_same _ _ _
  | processed f =>
    show alGet (alSet fs.dests (destPathFor cfg fs.dests cls) (pyStrip body ++ "\n"))
      (destPathFor cfg fs.dests cls) = some (pyStrip body ++ "\n")
    exact alGet_alSet_same _ _ _
  | dest p =>
    have hp : p ∈ fs.dests.map Prod.fst := hloc p rfl
    have hfresh : alGet fs.dests (destPathFor cfg fs.dests cls) = none :=
      destPathFor_fresh cfg fs.dests cls
    have hne : destPathFor cfg fs.dests cls ≠ p := by
      intro he
      rw [he, ← Option.not_isSome_iff_eq_none, alGet_isSome_iff] at hfresh
      exact hfresh hp
    show alGet (alRemove
        (alSet fs.dests (destPathFor cfg fs.dests cls) (pyStrip body ++ "\n")) p)
      (destPathFor cfg fs.dests cls) = some (pyStrip body ++ "\n")
    rw [alGet_alRemove_other _ _ _ hne]
    exact alGet_alSet_same _ _ _

/-- C5: retry safety of correction processing. (1) Whenever a pending fix
command produces no result, the entire state — the correction file
included — is unchanged, so it can be retried. (2, 3) In particular the
parsed target category being falsy or `unknown`, or the target not being
found by its transport id, produce no result and no mutation. (4) Whenever
a result is produced, the target had been located and its re-filed copy is
on disk at the result's destination path, and only then is the correction
file deleted. -/
theorem C5_fix_command_retry_safety (cfg : Config) (y : String → YamlResult)
    (fs : FS) (fname now : String) (f : SBFile)
    (hf : alGet fs.inbox fname = some f) :
    ((process_fix_command cfg y fs fname now).1 = none →
      (process_fix_command cfg y fs fname now).2 = fs) ∧
    ((!otruthy (fmGet f.fm "target_category") ||
        fmGet f.fm "target_category" == some (.str "unknown")) = true →
      process_fix_command cfg y fs fname now = (none, fs)) ∧
    (find_file_by_guid cfg y fs (fmGet f.fm "reply_to_guid") = none →
      process_fix_command cfg y fs fname now = (none, fs)) ∧
    (∀ r fs2, process_fix_command cfg y fs fname now = (some r, fs2) →
      ∃ loc, find_file_by_guid cfg y fs (fmGet f.fm "reply_to_guid") = some loc ∧
        alGet fs2.inbox fname = none ∧
        alGet fs2.dests r.path = some (pyStrip (readAt y fs loc).2 ++ "\n")) := by
  by_cases hc : (!otruthy (fmGet f.fm "target_category") ||
      fmGet f.fm "target_category" == some (.str "unknown")) = true
  · have hres : process_fix_command cfg y fs fname now = (none, fs) := by
      unfold process_fix_command
      rw [hf]
      simp [hc]
    refine ⟨fun _ => by rw [hres], fun _ => hres, fun _ => hres, ?_⟩
    intro r fs2 heq
    rw [hres] at heq
    simp at heq
  · simp only [Bool.not_eq_true] at hc
    cases hfind : find_file_by_guid cfg y fs (fmGet f.fm "reply_to_guid") with
    | none =>
      have hres : process_fix_command cfg y fs fname now = (none, fs) := by
        unfold process_fix_command
        rw [hf]
        simp [hc, hfind]
      refine ⟨fun _ => by rw [hres], fun _ => hres, fun hn => hres, ?_⟩
      intro r fs2 heq
      rw [hres] at heq
      simp at heq
    | some loc =>
      have hres : process_fix_command cfg y fs fname now =
          (some ⟨valueAsStr (fmGet f.fm "target_category"),
            destPathFor cfg fs.dests (fixClassification y fs loc (fmGet f.fm "target_category")),
            "", 0, "", true⟩,
          { (file_to_destination cfg fs loc (readAt y fs loc).1 (readAt y fs loc).2
              (fixClassification y fs loc (fmGet f.fm "target_category")) now).2 with
            inbox := alRemove (file_to_destination cfg fs loc (readAt y fs loc).1
              (readAt y fs loc).2
              (fixClassification y fs loc (fmGet f.fm "target_category")) now).2.inbox
              fname }) := by
        unfold process_fix_command
        rw [hf]
        simp [hc, hfind, file_to_destination_fst]
      refine ⟨?_, ?_, ?_, ?_⟩
      · intro h1
        rw [hres] at h1
        simp at h1
      · intro hcc
        rw [hcc] at hc
        simp at hc
      · intro hn
        cases hn
      · intro r fs2 heq
        rw [hres] at heq
        injection heq with h1 h2
        injection h1 with h1
        refine ⟨loc, rfl, ?_, ?_⟩
        · rw [← h2]
          exact alGet_alRemove_same _ _
        · rw [← h2, ← h1]
          exact file_to_destination_dests_get cfg fs loc (readAt y fs loc).1
            (readAt y fs loc).2
            (fixClassification y fs loc (fmGet f.fm "target_category")) now
            (fun p hp => by
              subst hp
              exact find_file_by_guid_dest_mem cfg y fs _ p hfind)

/-- C5's witness: a fix command whose category text could not be parsed
(`target_category: unknown`) is left pending with everything unchanged. -/
def fixUnknown : SBFile :=
  { fm := [("captured", .str "2026-01-02T09:00:00"), ("imessage_guid", .str "FIX-2"),
      ("type", .str "fix_command"), ("target_category", .str "unknown"),
      ("reply_to_guid", .str "ABC-123"), ("processed", .bool false)]
    body := "make it so" }

/-- The state for C5's witness. -/
def fsUnknown : FS :=
  { inbox := [("fix2.md", fixUnknown)]
    processed := [("recent.md", recentItem)]
    dests := [("Second Brain/Ideas/Buy-milk.md", "Buy milk\n")]
    log := none }

/-- Witness for C5: the unrecognized-category fix command mutates nothing. -/
theorem C5_witness :
    process_fix_command cfg0 yNone fsUnknown "fix2.md" "T" = (none, fsUnknown) :=
  (C5_fix_command_retry_safety cfg0 yNone fsUnknown "fix2.md" "T" fixUnknown
    (by decide)).2.1 (by decide)

theorem str_toList_append (s t : String) : (s ++ t).toList = s.toList ++ t.toList := rfl

theorem chIsPrefixOf_self_append : ∀ l t : List Char, l.isPrefixOf (l ++ t) = true := by
  intro l
  induction l with
  | nil => intro t; cases t <;> rfl
  | cons c cs ih => intro t; simp [List.isPrefixOf, ih]

/-- Every path file_to_destination chooses lies under the category's
configured folder. -/
theorem destPathFor_starts (cfg : Config) (dests : List (String × String))
    (cls : Classification) :
    pyStartsWith (destPathFor cfg dests cls)
      (get_category_path cfg (cls.category.getD "needs_review") ++ "/") = true := by
  unfold destPathFor pyStartsWith
  have hbase : (destBase cfg cls ++ ".md").toList =
      (get_category_path cfg (cls.category.getD "needs_review") ++ "/").toList ++
      ((sanitize_filename (cls.name.getD "Untitled")).toList ++ ".md".toList) := by
    rw [str_toList_append]
    rw [show (destBase cfg cls).toList =
      (get_category_path cfg (cls.category.getD "needs_review") ++ "/").toList ++
      (sanitize_filename (cls.name.getD "Untitled")).toList from rfl]
    rw [List.append_assoc]
  split
  · split
    · rename_i n hn
      show ((get_category_path cfg (cls.category.getD "needs_review") ++ "/").toList).isPrefixOf
        (String.mk (suffixName (destBase cfg cls).toList n)).toList = true
      unfold suffixName
      rw [show (destBase cfg cls).toList =
        (get_category_path cfg (cls.category.getD "needs_review") ++ "/").toList ++
        (sanitize_filename (cls.name.getD "Untitled")).toList from rfl]
      rw [show (String.mk (((get_category_path cfg (cls.category.getD "needs_review") ++
        "/").toList ++ (sanitize_filename (cls.name.getD "Untitled")).toList) ++
        '-' :: (chNatStr n ++ ".md".toList))).toList =
        ((get_category_path cfg (cls.category.getD "needs_review") ++ "/").toList ++
        (sanitize_filename (cls.name.getD "Untitled")).toList) ++
        '-' :: (chNatStr n ++ ".md".toList) from rfl]
      rw [List.append_assoc]
      exact chIsPrefixOf_self_append _ _
    · rw [hbase]
      exact chIsPrefixOf_self_append _ _
  · rw [hbase]
    exact chIsPrefixOf_self_append _ _

/-- What mark_needs_review writes: the file stays in the Inbox under its
name, with needs_review set, the confidence persisted, and the reason
persisted when present and nonempty. -/
theorem mark_needs_review_facts (fs : FS) (fname : String) (f : SBFile)
    (cls : Classification) (now : String) :
    ∃ fm2, (mark_needs_review fs fname f cls now).inbox =
        alSet fs.inbox fname ⟨fm2, f.body⟩ ∧
      fmGet fm2 "needs_review" = some (.bool true) ∧
      fmGet fm2 "confidence" = some (.rat (cls.confidence.getD 0)) ∧
      (∀ rs, cls.reason = some rs → rs ≠ "" →
        fmGet fm2 "review_reason" = some (.str rs)) := by
  unfold mark_needs_review
  cases hreason : cls.reason with
  | none =>
    refine ⟨_, rfl, ?_, ?_, ?_⟩
    · show alGet (alSet (alSet (alSet f.fm "needs_review" (.bool true))
        "classified_at" (.str now)) "confidence" (.rat (cls.confidence.getD 0)))
        "needs_review" = some (.bool true)
      rw [alGet_alSet_other _ _ _ _ (by decide), alGet_alSet_other _ _ _ _ (by decide),
        alGet_alSet_same]
    · show alGet (alSet (alSet (alSet f.fm "needs_review" (.bool true))
        "classified_at" (.str now)) "confidence" (.rat (cls.confidence.getD 0)))
        "confidence" = some (.rat (cls.confidence.getD 0))
      rw [alGet_alSet_same]
    · intro rs hrs
      cases hrs
  | some rs0 =>
    by_cases hempty : rs0 = ""
    · subst hempty
      refine ⟨_, rfl, ?_, ?_, ?_⟩
      · show alGet (if ("" != "") = true then _ else alSet (alSet (alSet f.fm
          "needs_review" (.bool true)) "classified_at" (.str now)) "confidence"
          (.rat (cls.confidence.getD 0))) "needs_review" = some (.bool true)
        simp only [bne_self_eq_false, Bool.false_eq_true, if_false]
        rw [alGet_alSet_other _ _ _ _ (by decide), alGet_alSet_other _ _ _ _ (by decide),
          alGet_alSet_same]
      · show alGet (if ("" != "") = true then _ else alSet (alSet (alSet f.fm
          "needs_review" (.bool true)) "classified_at" (.str now)) "confidence"
          (.rat (cls.confidence.getD 0))) "confidence" = some (.rat (cls.confidence.getD 0))
        simp only [bne_self_eq_false, Bool.false_eq_true, if_false]
        rw [alGet_alSet_same]
      · intro rs hrs hne
        injection hrs with hrs
        exact absurd hrs.symm hne
    · have hb : (rs0 != "") = true := by simpa using hempty
      refine ⟨_, rfl, ?_, ?_, ?_⟩
      · show alGet (if (rs0 != "") = true then alSet (alSet (alSet (alSet f.fm
          "needs_review" (.bool true)) "classified_at" (.str now)) "confidence"
          (.rat (cls.confidence.getD 0))) "review_reason" (.str rs0) else _)
          "needs_review" = some (.bool true)
        rw [if_pos hb]
        rw [alGet_alSet_other _ _ _ _ (by decide), alGet_alSet_other _ _ _ _ (by decide),
          alGet_alSet_other _ _ _ _ (by decide), alGet_alSet_same]
      · show alGet (if (rs0 != "") = true then alSet (alSet (alSet (alSet f.fm
          "needs_review" (.bool true)) "classified_at" (.str now)) "confidence"
          (.rat (cls.confidence.getD 0))) "review_reason" (.str rs0) else _)
          "confidence" = some (.rat (cls.confidence.getD 0))
        rw [if_pos hb]
        rw [alGet_alSet_other _ _ _ _ (by decide), alGet_alSet_same]
      · intro rs hrs hne
        injection hrs with hrs
        subst hrs
        show alGet (if (rs0 != "") = true then alSet (alSet (alSet (alSet f.fm
          "needs_review" (.bool true)) "classified_at" (.str now)) "confidence"
          (.rat (cls.confidence.getD 0))) "review_reason" (.str rs0) else _)
          "review_reason" = some (.str rs0)
        rw [if_pos hb]
        rw [alGet_alSet_same]

/-- C1 (amended): the filing gate of process_capture is the literal check
`category == 'needs_review' or confidence < 0.6` — membership of the
returned category in the configured set is NOT tested. For a pending
capture with nonempty body and a successful classification: when the
stated category is not the literal `needs_review` and confidence ≥ 0.6,
the item is filed under the category's destination folder and leaves the
holding area; otherwise the category is forced to `needs_review`, the
confidence and the optional nonempty reason are persisted in the file's
front matter, and the item stays in the holding area (archive,
destinations and log untouched). -/
theorem C1_confidence_gate (cfg : Config) (classify : String → Option Classification)
    (fs : FS) (fname now : String) (f : SBFile) (cls : Classification)
    (hf : alGet fs.inbox fname = some f)
    (hbody : pyStrip f.body ≠ "")
    (hcls : classify f.body = some cls) :
    (cls.category.getD "needs_review" ≠ "needs_review" →
      ¬ cls.confidence.getD 0 < mkRat 6 10 →
      (process_capture cfg classify fs fname now).1 =
        some ⟨cls.category.getD "needs_review", destPathFor cfg fs.dests cls,
          cls.name.getD "", cls.confidence.getD 0, .mk (f.body.toList.take 50), false⟩ ∧
      alGet (process_capture cfg classify fs fname now).2.inbox fname = none ∧
      alGet (process_capture cfg classify fs fname now).2.dests
        (destPathFor cfg fs.dests cls) = some (pyStrip f.body ++ "\n") ∧
      pyStartsWith (destPathFor cfg fs.dests cls)
        (get_category_path cfg (cls.category.getD "needs_review") ++ "/") = true) ∧
    (cls.category.getD "needs_review" = "needs_review" ∨
        cls.confidence.getD 0 < mkRat 6 10 →
      (process_capture cfg classify fs fname now).1 =
        some ⟨"needs_review", fname, "", 0, "", false⟩ ∧
      (∃ fm2, alGet (process_capture cfg classify fs fname now).2.inbox fname =
          some ⟨fm2, f.body⟩ ∧
        fmGet fm2 "needs_review" = some (.bool true) ∧
        fmGet fm2 "confidence" = some (.rat (cls.confidence.getD 0)) ∧
        (∀ rs, cls.reason = some rs → rs ≠ "" →
          fmGet fm2 "review_reason" = some (.str rs))) ∧
      (process_capture cfg classify fs fname now).2.dests = fs.dests ∧
      (process_capture cfg classify fs fname now).2.processed = fs.processed ∧
      (process_capture cfg classify fs fname now).2.log = fs.log) := by
  constructor
  · intro hcat hconf
    have hcond : (decide (cls.category.getD "needs_review" = "needs_review") ||
        decide (cls.confidence.getD 0 < mkRat 6 10)) = false := by
      simp [hcat, hconf]
    have hres : process_capture cfg classify fs fname now =
        (some ⟨cls.category.getD "needs_review", destPathFor cfg fs.dests cls,
          cls.name.getD "", cls.confidence.getD 0, .mk (f.body.toList.take 50), false⟩,
        (file_to_destination cfg fs (.inbox fname) f.fm f.body cls now).2) := by
      unfold process_capture
      rw [hf]
      simp [hbody, hcls, hcond, file_to_destination_fst]
    refine ⟨by rw [hres], ?_, ?_, destPathFor_starts cfg fs.dests cls⟩
    · rw [hres]
      show alGet (alRemove fs.inbox fname) fname = none
      exact alGet_alRemove_same _ _
    · rw [hres]
      exact file_to_destination_dests_get cfg fs (.inbox fname) f.fm f.body cls now
        (fun p hp => nomatch hp)
  · intro hrev
    have hcond : (decide (cls.category.getD "needs_review" = "needs_review") ||
        decide (cls.confidence.getD 0 < mkRat 6 10)) = true := by
      rcases hrev with h | h
      · simp [h]
      · simp [h]
    have hres : process_capture cfg classify fs fname now =
        (some ⟨"needs_review", fname, "", 0, "", false⟩,
        mark_needs_review fs fname f { cls with category := some "needs_review" } now) := by
      unfold process_capture
      rw [hf]
      simp [hbody, hcls, hcond]
    obtain ⟨fm2, hinbox, hnr, hconf2, hreason2⟩ :=
      mark_needs_review_facts fs fname f { cls with category := some "needs_review" } now
    refine ⟨by rw [hres], ⟨fm2, ?_, hnr, hconf2, hreason2⟩, by rw [hres]; rfl,
      by rw [hres]; rfl, by rw [hres]; rfl⟩
    rw [hres]
    show alGet (mark_needs_review fs fname f
      { cls with category := some "needs_review" } now).inbox fname = some ⟨fm2, f.body⟩
    rw [hinbox, alGet_alSet_same]

/-- The out-of-set classification of C1's counterexample: category `misc`
is not configured, yet confidence 0.9 passes the gate. -/
def clsMisc : Classification :=
  { category := some "misc", confidence := some (mkRat 9 10), name := some "A Note",
    tags := [], reason := none }

/-- C1 counterexample: with configured categories {tasks, ideas}, a
successful classification stating the out-of-set category `misc` with
confidence 0.9 is FILED (to the fallback folder `Second Brain/Misc`) and
leaves the holding area, instead of being forced to needs_review as the
claim requires for a category outside the configured set. -/
theorem C1_counterexample :
    ((get_category_list cfg0).contains "misc") = false ∧
    (process_capture cfg0 (fun _ => some clsMisc) fs0 "cap.md" "T").1 =
      some ⟨"misc", "Second Brain/Misc/A-Note.md", "A Note", mkRat 9 10,
        "Buy milk", false⟩ ∧
    alGet (process_capture cfg0 (fun _ => some clsMisc) fs0 "cap.md" "T").2.inbox
      "cap.md" = none ∧
    alGet (process_capture cfg0 (fun _ => some clsMisc) fs0 "cap.md" "T").2.dests
      "Second Brain/Misc/A-Note.md" = some "Buy milk\n" := by
  exact ⟨by decide, by decide, by decide, by decide⟩

/-- The in-set classification of C1's witness. -/
def clsTasks : Classification :=
  { category := some "tasks", confidence := some (mkRat 95 100),
    name := some "Buy milk", tags := ["errand"], reason := none }

/-- Witness for C1 at a concrete input: a confident in-set classification
files the capture and empties its Inbox slot. -/
theorem C1_witness :
    (process_capture cfg0 (fun _ => some clsTasks) fs0 "cap.md" "T").1 =
      some ⟨"tasks", destPathFor cfg0 fs0.dests clsTasks, "Buy milk", mkRat 95 100,
        "Buy milk", false⟩ ∧
    alGet (process_capture cfg0 (fun _ => some clsTasks) fs0 "cap.md" "T").2.inbox
      "cap.md" = none := by
  have h := (C1_confidence_gate cfg0 (fun _ => some clsTasks) fs0 "cap.md" "T"
    capFile clsTasks (by decide) (by decide) rfl).1 (by decide) (by decide)
  exact ⟨h.1, h.2.1⟩

/-- The front matter file_to_destination writes to the archived copy. -/
def filedFm (fm : Frontmatter) (cls : Classification) (destPath now : String) :
    Frontmatter :=
  if (!cls.tags.isEmpty) = true then
    fmUpdate (fmUpdate fm [("processed", .bool true),
      ("classified_as", .str (cls.category.getD "needs_review")),
      ("destination", .str destPath), ("classified_at", .str now),
      ("confidence", .rat (cls.confidence.getD 0)),
      ("name", .str (cls.name.getD "Untitled"))]) [("tags", .vlist cls.tags)]
  else
    fmUpdate fm [("processed", .bool true),
      ("classified_as", .str (cls.category.getD "needs_review")),
      ("destination", .str destPath), ("classified_at", .str now),
      ("confidence", .rat (cls.confidence.getD 0)),
      ("name", .str (cls.name.getD "Untitled"))]

/-- file_to_destination on an Inbox original, written out as one record. -/
theorem file_to_destination_eq (cfg : Config) (fs : FS) (fname : String)
    (fm : Frontmatter) (body : String) (cls : Classification) (now : String) :
    file_to_destination cfg fs (.inbox fname) fm body cls now =
      (destPathFor cfg fs.dests cls,
       { inbox := alRemove fs.inbox fname
         processed := alSet fs.processed fname
           ⟨filedFm fm cls (destPathFor cfg fs.dests cls) now, body⟩
         dests := alSet fs.dests (destPathFor cfg fs.dests cls) (pyStrip body ++ "\n")
         log := fs.log }) := rfl

theorem alGet_append {α : Type} (l1 l2 : List (String × α)) (k : String) :
    alGet (l1 ++ l2) k =
      match alGet l1 k with
      | some v => some v
      | none => alGet l2 k := by
  induction l1 with
  | nil => rfl
  | cons hd tl ih =>
    obtain ⟨k0, v0⟩ := hd
    by_cases h : k0 = k
    · simp [alGet, h]
    · simp [alGet, h, ih]

theorem findIn_append (g : Value) (l1 l2 : List (String × SBFile)) :
    findIn g (l1 ++ l2) =
      match findIn g l1 with
      | some x => some x
      | none => findIn g l2 := by
  induction l1 with
  | nil => rfl
  | cons hd tl ih =>
    obtain ⟨n0, f0⟩ := hd
    by_cases h : guidMatches g f0.fm = true
    · simp [findIn, h]
    · simp [findIn, h, ih]

theorem fmUpdate_append (fm : Frontmatter) (l1 l2 : List (String × Value)) :
    fmUpdate fm (l1 ++ l2) = fmUpdate (fmUpdate fm l1) l2 := by
  unfold fmUpdate
  exact List.foldl_append _ _ _ _

theorem fmGet_fmUpdate_not_mem (fm : Frontmatter) (kvs : List (String × Value))
    (k : String) (h : ∀ k2 ∈ kvs.map Prod.fst, k ≠ k2) :
    fmGet (fmUpdate fm kvs) k = fmGet fm k := by
  induction kvs generalizing fm with
  | nil => rfl
  | cons kv rest ih =>
    have hstep : fmUpdate fm (kv :: rest) = fmUpdate (alSet fm kv.1 kv.2) rest := rfl
    rw [hstep, ih (alSet fm kv.1 kv.2)
      (fun e he => h e (by simpa using Or.inr (by simpa using he)))]
    exact alGet_alSet_other _ _ _ _ (h kv.1 (by simp))

theorem fmGet_fmUpdate_head (fm : Frontmatter) (k : String) (v : Value)
    (rest : List (String × Value)) (h : ∀ k2 ∈ rest.map Prod.fst, k ≠ k2) :
    fmGet (fmUpdate fm ((k, v) :: rest)) k = some v := by
  have hstep : fmUpdate fm ((k, v) :: rest) = fmUpdate (alSet fm k v) rest := rfl
  rw [hstep, fmGet_fmUpdate_not_mem (alSet fm k v) rest k h]
  exact alGet_alSet_same _ _ _

/-- The archived copy's metadata keeps the transport guid and records the
destination path. -/
theorem filedFm_gets (fm : Frontmatter) (cls : Classification) (destPath now : String) :
    fmGet (filedFm fm cls destPath now) "imessage_guid" = fmGet fm "imessage_guid" ∧
    fmGet (filedFm fm cls destPath now) "destination" = some (.str destPath) := by
  unfold filedFm
  have hdest : fmGet (fmUpdate fm [("processed", .bool true),
      ("classified_as", .str (cls.category.getD "needs_review")),
      ("destination", .str destPath), ("classified_at", .str now),
      ("confidence", .rat (cls.confidence.getD 0)),
      ("name", .str (cls.name.getD "Untitled"))]) "destination" = some (.str destPath) := by
    have hsplit : [(("processed" : String), Value.bool true),
        ("classified_as", .str (cls.category.getD "needs_review")),
        ("destination", .str destPath), ("classified_at", .str now),
        ("confidence", .rat (cls.confidence.getD 0)),
        ("name", .str (cls.name.getD "Untitled"))] =
      [("processed", .bool true),
        ("classified_as", .str (cls.category.getD "needs_review"))] ++
      (("destination", Value.str destPath) :: [("classified_at", .str now),
        ("confidence", .rat (cls.confidence.getD 0)),
        ("name", .str (cls.name.getD "Untitled"))]) := rfl
    rw [hsplit, fmUpdate_append]
    exact fmGet_fmUpdate_head _ _ _ _
      (by decide : ∀ k2 ∈ (["classified_at", "confidence", "name"] : List String),
        "destination" ≠ k2)
  have hguid : fmGet (fmUpdate fm [("processed", .bool true),
      ("classified_as", .str (cls.category.getD "needs_review")),
      ("destination", .str destPath), ("classified_at", .str now),
      ("confidence", .rat (cls.confidence.getD 0)),
      ("name", .str (cls.name.getD "Untitled"))]) "imessage_guid" =
      fmGet fm "imessage_guid" := by
    exact fmGet_fmUpdate_not_mem _ _ _
      (by decide : ∀ k2 ∈ (["processed", "classified_as", "destination",
        "classified_at", "confidence", "name"] : List String), "imessage_guid" ≠ k2)
  by_cases hc : (!cls.tags.isEmpty) = true
  · rw [if_pos hc]
    constructor
    · rw [fmGet_fmUpdate_not_mem _ [("tags", Value.vlist cls.tags)] "imessage_guid"
        (by intro k2 hk2; simp at hk2; subst hk2; decide), hguid]
    · rw [fmGet_fmUpdate_not_mem _ [("tags", Value.vlist cls.tags)] "destination"
        (by intro k2 hk2; simp at hk2; subst hk2; decide), hdest]
  · rw [if_neg hc]
    exact ⟨hguid, hdest⟩

/-- C8: filing two items whose titles sanitize to the same filename into
the same category does not overwrite — the second gets a numeric suffix,
yielding two distinct destination files, both on disk with their own
bodies, and each item remains retrievable by its own transport id in the
archive metadata, whose `destination` field points at that item's own
destination file. -/
theorem C8_filename_collision (cfg : Config) (fs : FS) (n1 n2 g1 g2 : String)
    (fm1 fm2 : Frontmatter) (b1 b2 : String) (cls1 cls2 : Classification)
    (now1 now2 : String)
    (_hcat : cls1.category.getD "needs_review" = cls2.category.getD "needs_review")
    (_hsan : sanitize_filename (cls1.name.getD "Untitled") =
      sanitize_filename (cls2.name.getD "Untitled"))
    (hg1 : fmGet fm1 "imessage_guid" = some (.str g1))
    (hg2 : fmGet fm2 "imessage_guid" = some (.str g2))
    (hgne : g1 ≠ g2) (hnne : n1 ≠ n2)
    (hk1 : alGet fs.processed n1 = none) (hk2 : alGet fs.processed n2 = none)
    (hf1 : findIn (.str g1) fs.processed = none)
    (hf2 : findIn (.str g2) fs.processed = none) :
    (file_to_destination cfg fs (.inbox n1) fm1 b1 cls1 now1).1 ≠
      (file_to_destination cfg (file_to_destination cfg fs (.inbox n1) fm1 b1 cls1 now1).2
        (.inbox n2) fm2 b2 cls2 now2).1 ∧
    alGet (file_to_destination cfg (file_to_destination cfg fs (.inbox n1) fm1 b1 cls1 now1).2
        (.inbox n2) fm2 b2 cls2 now2).2.dests
      (file_to_destination cfg fs (.inbox n1) fm1 b1 cls1 now1).1 =
      some (pyStrip b1 ++ "\n") ∧
    alGet (file_to_destination cfg (file_to_destination cfg fs (.inbox n1) fm1 b1 cls1 now1).2
        (.inbox n2) fm2 b2 cls2 now2).2.dests
      (file_to_destination cfg (file_to_destination cfg fs (.inbox n1) fm1 b1 cls1 now1).2
        (.inbox n2) fm2 b2 cls2 now2).1 = some (pyStrip b2 ++ "\n") ∧
    findIn (.str g1)
      (file_to_destination cfg (file_to_destination cfg fs (.inbox n1) fm1 b1 cls1 now1).2
        (.inbox n2) fm2 b2 cls2 now2).2.processed = some n1 ∧
    findIn (.str g2)
      (file_to_destination cfg (file_to_destination cfg fs (.inbox n1) fm1 b1 cls1 now1).2
        (.inbox n2) fm2 b2 cls2 now2).2.processed = some n2 ∧
    (alGet (file_to_destination cfg (file_to_destination cfg fs (.inbox n1) fm1 b1 cls1 now1).2
        (.inbox n2) fm2 b2 cls2 now2).2.processed n1).map
      (fun file => fmGet file.fm "destination") =
      some (some (.str (file_to_destination cfg fs (.inbox n1) fm1 b1 cls1 now1).1)) ∧
    (alGet (file_to_destination cfg (file_to_destination cfg fs (.inbox n1) fm1 b1 cls1 now1).2
        (.inbox n2) fm2 b2 cls2 now2).2.processed n2).map
      (fun file => fmGet file.fm "destination") =
      some (some (.str (file_to_destination cfg
        (file_to_destination cfg fs (.inbox n1) fm1 b1 cls1 now1).2
        (.inbox n2) fm2 b2 cls2 now2).1)) := by
  rw [file_to_destination_eq cfg fs n1 fm1 b1 cls1 now1]
  rw [file_to_destination_eq cfg _ n2 fm2 b2 cls2 now2]
  simp only []
  have hp1fresh : alGet (alSet fs.dests (destPathFor cfg fs.dests cls1) (pyStrip b1 ++ "\n"))
      (destPathFor cfg (alSet fs.dests (destPathFor cfg fs.dests cls1) (pyStrip b1 ++ "\n")) cls2)
      = none := destPathFor_fresh cfg _ cls2
  have hne : destPathFor cfg fs.dests cls1 ≠
      destPathFor cfg (alSet fs.dests (destPathFor cfg fs.dests cls1) (pyStrip b1 ++ "\n")) cls2 := by
    intro he
    rw [← he, alGet_alSet_same] at hp1fresh
    cases hp1fresh
  refine ⟨hne, ?_, ?_, ?_, ?_, ?_, ?_⟩
  · rw [alGet_alSet_other _ _ _ _ hne, alGet_alSet_same]
  · rw [alGet_alSet_same]
  · rw [alSet_fresh fs.processed n1 _ hk1]
    rw [alSet_fresh _ n2 _ (by
      rw [alGet_append, hk2]
      simp [alGet, hnne])]
    rw [List.append_assoc, findIn_append, hf1]
    have hm1 : guidMatches (.str g1) (filedFm fm1 cls1 (destPathFor cfg fs.dests cls1) now1) = true := by
      unfold guidMatches
      rw [(filedFm_gets fm1 cls1 (destPathFor cfg fs.dests cls1) now1).1, hg1]
      simp
    simp [findIn, hm1]
  · rw [alSet_fresh fs.processed n1 _ hk1]
    rw [alSet_fresh _ n2 _ (by
      rw [alGet_append, hk2]
      simp [alGet, hnne])]
    rw [List.append_assoc, findIn_append, hf2]
    have hm1 : guidMatches (.str g2) (filedFm fm1 cls1 (destPathFor cfg fs.dests cls1) now1) = false := by
      unfold guidMatches
      rw [(filedFm_gets fm1 cls1 (destPathFor cfg fs.dests cls1) now1).1, hg1]
      simp only [beq_eq_false_iff_ne, ne_eq, Option.some.injEq, Value.str.injEq]
      exact hgne
    have hm2 : guidMatches (.str g2) (filedFm fm2 cls2
        (destPathFor cfg (alSet fs.dests (destPathFor cfg fs.dests cls1)
          (pyStrip b1 ++ "\n")) cls2) now2) = true := by
      unfold guidMatches
      rw [(filedFm_gets fm2 cls2 _ now2).1, hg2]
      simp
    simp [findIn, hm1, hm2]
  · rw [alGet_alSet_other _ _ _ _ hnne, alGet_alSet_same]
    simp only [Option.map]
    rw [(filedFm_gets fm1 cls1 (destPathFor cfg fs.dests cls1) now1).2]
  · rw [alGet_alSet_same]
    simp only [Option.map]
    rw [(filedFm_gets fm2 cls2 _ now2).2]

/-- Witness for C8: two captures titled identically collide; the second is
filed as `Buy-milk-1.md` and both remain retrievable by guid. -/
theorem C8_witness :
    (file_to_destination cfg0 fs0 (.inbox "a.md")
      [("imessage_guid", Value.str "G-1")] "body one" clsTasks "T1").1 ≠
    (file_to_destination cfg0
      (file_to_destination cfg0 fs0 (.inbox "a.md")
        [("imessage_guid", Value.str "G-1")] "body one" clsTasks "T1").2
      (.inbox "b.md") [("imessage_guid", Value.str "G-2")] "body two" clsTasks "T2").1 ∧
    findIn (.str "G-1")
      (file_to_destination cfg0
        (file_to_destination cfg0 fs0 (.inbox "a.md")
          [("imessage_guid", Value.str "G-1")] "body one" clsTasks "T1").2
        (.inbox "b.md") [("imessage_guid", Value.str "G-2")] "body two" clsTasks "T2").2.processed
      = some "a.md" := by
  have h := C8_filename_collision cfg0 fs0 "a.md" "b.md" "G-1" "G-2"
    [("imessage_guid", Value.str "G-1")] [("imessage_guid", Value.str "G-2")]
    "body one" "body two" clsTasks clsTasks "T1" "T2"
    rfl rfl (by decide) (by decide) (by decide) (by decide)
    (by decide) (by decide) (by decide) (by decide)
  exact ⟨h.1, h.2.2.2.1⟩

theorem update_frontmatter_other (fs : FS) (fname fother : String)
    (updates : List (String × Value)) (h : fname ≠ fother) :
    alGet (update_frontmatter fs fother updates).inbox fname = alGet fs.inbox fname := by
  unfold update_frontmatter
  cases halt : alGet fs.inbox fother with
  | none => rfl
  | some f =>
    show alGet (alSet fs.inbox fother _) fname = _
    exact alGet_alSet_other _ _ _ _ h

theorem sendFeedbackLoop_attempts (cfg : Config) (sendOk : String → Bool) (now : String) :
    ∀ items fs, (sendFeedbackLoop cfg sendOk now items fs).2.2 =
      items.map (fun e => (e.1, feedbackMessage cfg e.2.fm e.2.body)) := by
  intro items
  induction items with
  | nil => intro fs; rfl
  | cons e rest ih =>
    intro fs
    obtain ⟨fname, f⟩ := e
    rw [sendFeedbackLoop]
    by_cases hs : sendOk (feedbackMessage cfg f.fm f.body) = true
    · simp [hs, ih]
    · simp [hs, ih]

theorem sendFeedbackLoop_not_mem (cfg : Config) (sendOk : String → Bool) (now : String) :
    ∀ items fs fname, fname ∉ items.map Prod.fst →
      alGet (sendFeedbackLoop cfg sendOk now items fs).1.inbox fname =
        alGet fs.inbox fname := by
  intro items
  induction items with
  | nil => intro fs fname _; rfl
  | cons e rest ih =>
    intro fs fname hnm
    obtain ⟨n0, f0⟩ := e
    have hne : fname ≠ n0 := by
      intro he
      exact hnm (by simp [he])
    have hrest : fname ∉ rest.map Prod.fst := fun hm => hnm (by simp [hm])
    rw [sendFeedbackLoop]
    by_cases hs : sendOk (feedbackMessage cfg f0.fm f0.body) = true
    · simp only [hs, if_true]
      rw [ih _ fname hrest]
      exact update_frontmatter_other fs fname n0 _ hne
    · simp only [hs, Bool.false_eq_true, if_false]
      exact ih fs fname hrest

theorem sendFeedbackLoop_mem (cfg : Config) (sendOk : String → Bool) (now : String) :
    ∀ items fs fname f, (items.map Prod.fst).count fname = 1 → (fname, f) ∈ items →
      alGet fs.inbox fname = some f →
      alGet (sendFeedbackLoop cfg sendOk now items fs).1.inbox fname =
        some (if sendOk (feedbackMessage cfg f.fm f.body) = true then
          ⟨fmUpdate f.fm [("feedback_sent", .bool true), ("feedback_sent_at", .str now)],
            f.body⟩
        else f) := by
  intro items
  induction items with
  | nil =>
    intro fs fname f hc hm
    cases hm
  | cons e rest ih =>
    intro fs fname f hcount hmem hget
    obtain ⟨n0, f0⟩ := e
    by_cases hne : fname = n0
    · subst hne
      have hrestout : fname ∉ rest.map Prod.fst := by
        simp only [List.map_cons, List.count_cons_self] at hcount
        exact List.count_eq_zero.mp (by omega)
      have hf0 : f0 = f := by
        rcases List.mem_cons.mp hmem with he | hm2
        · injection he with _ he2
          exact he2.symm
        · exfalso
          exact hrestout (List.mem_map.mpr ⟨(fname, f), hm2, rfl⟩)
      subst hf0
      rw [sendFeedbackLoop]
      by_cases hs : sendOk (feedbackMessage cfg f0.fm f0.body) = true
      · simp only [hs, if_true]
        rw [sendFeedbackLoop_not_mem cfg sendOk now rest _ fname hrestout]
        unfold update_frontmatter
        rw [hget]
        show alGet (alSet fs.inbox fname _) fname = _
        rw [alGet_alSet_same]
      · simp only [hs, Bool.false_eq_true, if_false]
        rw [sendFeedbackLoop_not_mem cfg sendOk now rest fs fname hrestout, hget]
    · have hm2 : (fname, f) ∈ rest := by
        rcases List.mem_cons.mp hmem with he | hm2
        · exfalso
          injection he with he1 _
          exact hne he1
        · exact hm2
      have hcount2 : (rest.map Prod.fst).count fname = 1 := by
        simp only [List.map_cons] at hcount
        rwa [List.count_cons_of_ne hne] at hcount
      rw [sendFeedbackLoop]
      by_cases hs : sendOk (feedbackMessage cfg f0.fm f0.body) = true
      · simp only [hs, if_true]
        exact ih _ fname f hcount2 hm2
          (by rw [update_frontmatter_other fs fname n0 _ hne, hget])
      · simp only [hs, Bool.false_eq_true, if_false]
        exact ih fs fname f hcount2 hm2 hget

theorem find_needs_review_mem (fs : FS) (fname : String) (f : SBFile) :
    (fname, f) ∈ find_needs_review_items fs ↔
      (fname, f) ∈ fs.inbox ∧
      (otruthy (fmGet f.fm "needs_review") &&
        !otruthy (fmGet f.fm "feedback_sent")) = true := by
  unfold find_needs_review_items
  rw [List.mem_filter]

theorem alGet_of_mem_nodup {α : Type} (l : List (String × α))
    (hnd : (l.map Prod.fst).Nodup) (k : String) (a : α) (hm : (k, a) ∈ l) :
    alGet l k = some a := by
  induction l with
  | nil => cases hm
  | cons hd tl ih =>
    obtain ⟨k0, v0⟩ := hd
    simp only [List.map_cons, List.nodup_cons] at hnd
    rcases List.mem_cons.mp hm with he | hm2
    · injection he with he1 he2
      subst he1
      subst he2
      simp [alGet]
    · have hk : k0 ≠ k := by
        intro he
        subst he
        exact hnd.1 (List.mem_map.mpr ⟨(k0, a), hm2, rfl⟩)
      simp only [alGet, if_neg hk]
      exact ih hnd.2 hm2

theorem keys_nodup_unique {α : Type} (l : List (String × α))
    (hnd : (l.map Prod.fst).Nodup) (k : String) (a b : α)
    (ha : (k, a) ∈ l) (hb : (k, b) ∈ l) : a = b := by
  have h1 := alGet_of_mem_nodup l hnd k a ha
  have h2 := alGet_of_mem_nodup l hnd k b hb
  rw [h1] at h2
  injection h2

/-- C7: the feedback-send run over the needs-review snapshot. (1) The
attempted messages are exactly one per item with truthy `needs_review` and
falsy `feedback_sent`, each embedding that item's transport id in the
`[SB:guid]` marker. (2) An eligible item is attempted exactly once, and its
`feedback_sent` flag (plus timestamp) is written if and only if the send
succeeded — a failed send leaves the file unchanged, hence still eligible
next cycle. (3) An item whose flag is already set (or which needs no
review) is not attempted and its file is untouched. -/
theorem C7_feedback_send_discipline (cfg : Config) (sendOk : String → String → Bool)
    (fs : FS) (now fname : String) (f : SBFile)
    (hen : cfg.feedbackEnabled = true) (hh : cfg.handles.isEmpty = false)
    (hnd : (fs.inbox.map Prod.fst).Nodup)
    (hmem : (fname, f) ∈ fs.inbox) :
    ((send_feedback_messages cfg sendOk fs now).2.2 =
      (find_needs_review_items fs).map (fun e => (e.1,
        "[SB:" ++ ((fmGetStr e.2.fm "imessage_guid").getD "UNKNOWN") ++
        "] Unclear: \"" ++ feedbackPreview e.2.body ++ "\". Reply: " ++
        String.mk (List.intercalate ['/']
          ((get_category_list cfg).map String.toList))))) ∧
    ((otruthy (fmGet f.fm "needs_review") &&
        !otruthy (fmGet f.fm "feedback_sent")) = true →
      ((find_needs_review_items fs).map Prod.fst).count fname = 1 ∧
      alGet (send_feedback_messages cfg sendOk fs now).1.inbox fname =
        some (if sendOk (cfg.handles.headD "")
            (feedbackMessage cfg f.fm f.body) = true then
          ⟨fmUpdate f.fm [("feedback_sent", .bool true),
            ("feedback_sent_at", .str now)], f.body⟩
        else f)) ∧
    ((otruthy (fmGet f.fm "needs_review") &&
        !otruthy (fmGet f.fm "feedback_sent")) = false →
      fname ∉ (find_needs_review_items fs).map Prod.fst ∧
      alGet (send_feedback_messages cfg sendOk fs now).1.inbox fname =
        alGet fs.inbox fname) := by
  have hrun : send_feedback_messages cfg sendOk fs now =
      sendFeedbackLoop cfg (sendOk (cfg.handles.headD "")) now
        (find_needs_review_items fs) fs := by
    unfold send_feedback_messages
    rw [hen, hh]
    rfl
  refine ⟨?_, ?_, ?_⟩
  · rw [hrun]
    exact sendFeedbackLoop_attempts cfg (sendOk (cfg.handles.headD "")) now
      (find_needs_review_items fs) fs
  · intro helig
    have hm2 : (fname, f) ∈ find_needs_review_items fs :=
      (find_needs_review_mem fs fname f).mpr ⟨hmem, helig⟩
    have hsub : (find_needs_review_items fs).Sublist fs.inbox := List.filter_sublist _
    have hnd2 : ((find_needs_review_items fs).map Prod.fst).Nodup :=
      (hsub.map Prod.fst).nodup hnd
    have hmemk : fname ∈ (find_needs_review_items fs).map Prod.fst :=
      List.mem_map.mpr ⟨(fname, f), hm2, rfl⟩
    have hcount : ((find_needs_review_items fs).map Prod.fst).count fname = 1 := by
      have hle := List.nodup_iff_count_le_one.mp hnd2 fname
      have hge := List.count_pos_iff.mpr hmemk
      omega
    refine ⟨hcount, ?_⟩
    rw [hrun]
    exact sendFeedbackLoop_mem cfg (sendOk (cfg.handles.headD "")) now
      (find_needs_review_items fs) fs fname f hcount hm2
      (alGet_of_mem_nodup fs.inbox hnd fname f hmem)
  · intro hinel
    have hnot : fname ∉ (find_needs_review_items fs).map Prod.fst := by
      intro hmemk
      obtain ⟨⟨fn2, f2⟩, hmem2, hfst⟩ := List.mem_map.mp hmemk
      simp only at hfst
      rw [hfst] at hmem2
      obtain ⟨hin2, helig2⟩ := (find_needs_review_mem fs fname f2).mp hmem2
      have hff : f2 = f := keys_nodup_unique fs.inbox hnd fname f2 f hin2 hmem
      subst hff
      rw [helig2] at hinel
      cases hinel
    refine ⟨hnot, ?_⟩
    rw [hrun]
    exact sendFeedbackLoop_not_mem cfg (sendOk (cfg.handles.headD "")) now
      (find_needs_review_items fs) fs fname hnot

/-- The needs-review item of C7's witness. -/
def reviewFile : SBFile :=
  { fm := [("imessage_guid", .str "R-1"), ("needs_review", .bool true)]
    body := "mystery text" }

/-- An item whose feedback was already sent, for C7's witness. -/
def sentFile : SBFile :=
  { fm := [("imessage_guid", .str "R-2"), ("needs_review", .bool true),
      ("feedback_sent", .bool true)]
    body := "old text" }

/-- The state for C7's witness. -/
def fsReview : FS :=
  { inbox := [("rev.md", reviewFile), ("sent.md", sentFile)]
    processed := [], dests := [], log := none }

/-- Witness for C7: with an always-succeeding transport, the eligible item
gets its flag set and was attempted exactly once; the already-notified item
is not attempted and is untouched. -/
theorem C7_witness :
    alGet (send_feedback_messages cfg0 (fun _ _ => true) fsReview "T").1.inbox
      "rev.md" = some ⟨fmUpdate reviewFile.fm [("feedback_sent", .bool true),
        ("feedback_sent_at", .str "T")], reviewFile.body⟩ ∧
    ((find_needs_review_items fsReview).map Prod.fst).count "rev.md" = 1 ∧
    "sent.md" ∉ (find_needs_review_items fsReview).map Prod.fst := by
  have h1 := (C7_feedback_send_discipline cfg0 (fun _ _ => true) fsReview "T"
    "rev.md" reviewFile rfl (by decide) (by decide) (by decide)).2.1 (by decide)
  have h2 := (C7_feedback_send_discipline cfg0 (fun _ _ => true) fsReview "T"
    "sent.md" sentFile rfl (by decide) (by decide) (by decide)).2.2 (by decide)
  exact ⟨by simpa using h1.2, h1.1, h2.1⟩

theorem insertIntoSection_skip (hdr entry : String) :
    ∀ pre tail, (∀ l ∈ pre, pyStrip l ≠ hdr) →
      insertIntoSection hdr entry false (pre ++ tail) =
        pre ++ insertIntoSection hdr entry false tail := by
  intro pre
  induction pre with
  | nil => intro tail _; rfl
  | cons l ls ih =>
    intro tail h
    rw [List.cons_append, insertIntoSection]
    rw [if_neg (h l (List.mem_cons_self l ls))]
    simp only [Bool.false_and, Bool.false_eq_true, if_false]
    rw [ih tail (fun e he => h e (List.mem_cons_of_mem l he))]
    rfl

theorem insertIntoSection_mid (hdr entry : String) :
    ∀ mid tail, (∀ l ∈ mid, pyStrip l ≠ hdr ∧
        ¬(pyStartsWith l "|" && pyContains l "---") = true) →
      insertIntoSection hdr entry true (mid ++ tail) =
        mid ++ insertIntoSection hdr entry true tail := by
  intro mid
  induction mid with
  | nil => intro tail _; rfl
  | cons l ls ih =>
    intro tail h
    obtain ⟨h1, h2⟩ := h l (List.mem_cons_self l ls)
    rw [List.cons_append, insertIntoSection]
    rw [if_neg h1]
    simp only [Bool.true_and]
    rw [if_neg h2]
    rw [ih tail (fun e he => h e (List.mem_cons_of_mem l he))]
    rfl

/-- C9: append_to_inbox_log. (a) When the log file does not exist, the
whole log is created: title, then the new day section (heading, table
header, separator) with the new row immediately after the separator.
(b) When the log exists but has no section for today, the day section plus
the row are inserted immediately after the title line, before all previous
days. (c) When today's section exists, the new row is inserted directly
after the day's table separator row — not at end of file — so rows read
newest-first within the day. -/
theorem C9_inbox_log_insertion (fs : FS) (today timeStr : String) (r : PResult) :
    (fs.log = none →
      pyContains "# Inbox Processing Log\n\n" ("## " ++ today) = false →
      (append_to_inbox_log fs today timeStr (some r)).log =
        some (joinLines ["# Inbox Processing Log", "", "## " ++ today, "",
          tableHeader, tableSep, logEntry timeStr r, "", ""])) ∧
    (∀ content titleLine rest,
      fs.log = some content →
      pyContains content ("## " ++ today) = false →
      pySplit content "\n" = titleLine :: rest →
      pyStartsWith titleLine "# " = true →
      (append_to_inbox_log fs today timeStr (some r)).log =
        some (joinLines (titleLine :: "" :: ("## " ++ today) :: "" ::
          tableHeader :: tableSep :: logEntry timeStr r :: rest))) ∧
    (∀ content pre hdrLine mid sep post,
      fs.log = some content →
      pyContains content ("## " ++ today) = true →
      pySplit content "\n" = pre ++ hdrLine :: (mid ++ sep :: post) →
      (∀ l ∈ pre, pyStrip l ≠ "## " ++ today) →
      pyStrip hdrLine = "## " ++ today →
      (∀ l ∈ mid, pyStrip l ≠ "## " ++ today ∧
        ¬(pyStartsWith l "|" && pyContains l "---") = true) →
      pyStrip sep ≠ "## " ++ today →
      (pyStartsWith sep "|" && pyContains sep "---") = true →
      (append_to_inbox_log fs today timeStr (some r)).log =
        some (joinLines (pre ++ hdrLine :: (mid ++ sep ::
          logEntry timeStr r :: post)))) := by
  refine ⟨?_, ?_, ?_⟩
  · intro hlog hcont
    unfold append_to_inbox_log
    rw [hlog]
    simp only [Option.getD, hcont, Bool.not_false, if_true]
    rw [show pySplit "# Inbox Processing Log\n\n" "\n" =
      ["# Inbox Processing Log", "", ""] from by decide]
    rw [insertNewSection, if_pos (by decide :
      pyStartsWith "# Inbox Processing Log" "# " = true)]
  · intro content titleLine rest hlog hcont hsplit htitle
    unfold append_to_inbox_log
    rw [hlog]
    simp only [Option.getD, hcont, Bool.not_false, if_true]
    rw [hsplit, insertNewSection, if_pos htitle]
  · intro content pre hdrLine mid sep post hlog hcont hsplit hpre hhdr hmid hsepne hsep
    unfold append_to_inbox_log
    rw [hlog]
    simp only [Option.getD, hcont, Bool.not_true, Bool.false_eq_true, if_false]
    rw [hsplit]
    rw [insertIntoSection_skip ("## " ++ today) (logEntry timeStr r) pre _ hpre]
    rw [insertIntoSection, if_pos hhdr]
    rw [insertIntoSection_mid ("## " ++ today) (logEntry timeStr r) mid _ hmid]
    rw [insertIntoSection, if_neg hsepne]
    simp only [Bool.true_and]
    rw [if_pos hsep]

/-- The filed result logged by C9's witness. -/
def r0 : PResult :=
  { category := "tasks", path := "Second Brain/Tasks/Buy-milk.md", name := "Buy milk"
    confidence := mkRat 95 100, original := "Buy milk", fixed := false }

/-- The state for C9's witness: a log whose today-section already holds one
row. -/
def fsLog : FS :=
  { inbox := [], processed := [], dests := []
    log := some ("# Inbox Processing Log\n\n## 20260101\n\n| Time | Original | Filed To | Destination | Status |\n|------|----------|----------|-------------|--------|\n| 09:00 | old... | tasks | [[t]] | Filed |\n") }

set_option maxRecDepth 8000 in
/-- Witness for C9: the new row lands directly after today's separator row,
above the 09:00 row. -/
theorem C9_witness :
    (append_to_inbox_log fsLog "20260101" "12:00" (some r0)).log =
      some (joinLines (["# Inbox Processing Log", ""] ++ "## 20260101" ::
        (["", "| Time | Original | Filed To | Destination | Status |"] ++
          "|------|----------|----------|-------------|--------|" ::
          logEntry "12:00" r0 :: ["| 09:00 | old... | tasks | [[t]] | Filed |", ""]))) :=
  (C9_inbox_log_insertion fsLog "20260101" "12:00" r0).2.2
    ("# Inbox Processing Log\n\n## 20260101\n\n| Time | Original | Filed To | Destination | Status |\n|------|----------|----------|-------------|--------|\n| 09:00 | old... | tasks | [[t]] | Filed |\n")
    ["# Inbox Processing Log", ""] "## 20260101"
    ["", "| Time | Original | Filed To | Destination | Status |"]
    "|------|----------|----------|-------------|--------|"
    ["| 09:00 | old... | tasks | [[t]] | Filed |", ""]
    rfl (by decide) (by decide) (by decide) (by decide) (by decide) (by decide)
    (by decide)

end SB
